import Mathlib

/-!
Verification of the local data ingestion and schema-inference engine of
`pyspark/sql/connect/session.py` (the Spark Connect `SparkSession.createDataFrame`
path).  The functions `createDataFrame`, `_inferSchemaFromList` and the record
normalisation (dict sorting, scalar wrapping) are embedded directly from the
source.  The helpers that the source imports from outside this repository slice
(`_infer_schema`, `_merge_type`, `_has_nulltype` from `pyspark.sql.types` and
`LocalDataToArrowConversion.convert` from `pyspark.sql.connect.conversion`) are
modelled from the specification, as marked on each definition.
-/

set_option maxHeartbeats 1000000

/-- Sort a keyed list lexicographically by key, as Python's `sorted` does for
the unique keys of a mapping. -/
def sortByKey {α : Type} (l : List (String × α)) : List (String × α) :=
  List.insertionSort (fun a b => a.1 ≤ b.1) l

/-- Keep, for every key, only its last entry (Python's `dict(pairs)`
keeps the last value bound to a key). -/
def dedupByKeyLast {α : Type} : List (String × α) → List (String × α)
  | [] => []
  | e :: rest =>
      if rest.any fun q => q.1 == e.1 then dedupByKeyLast rest
      else e :: dedupByKeyLast rest

/-- Keep, for every key, only its first entry (named-record field access
resolves a name to its first occurrence). -/
def dedupByKeyFirst {α : Type} : List (String × α) → List (String × α)
  | [] => []
  | e :: rest => e :: dedupByKeyFirst (rest.filter fun q => !(q.1 == e.1))
termination_by l => l.length
decreasing_by
  simp only [List.length_cons]
  exact Nat.lt_succ_of_le (List.length_filter_le _ _)

/-- Pairwise distinctness of a name list. -/
def nodupNames : List String → Bool
  | [] => true
  | n :: rest => !(rest.any fun m => m == n) && nodupNames rest

/-- Python values that can appear in the client-supplied records.  Floats carry
their numeric payload as a rational (the engine never computes with the payload,
it only stores and classifies it); nested sequences are `vlist`, nested
mappings are `vdict`, and nested named records (pyspark `Row`) are `vrow`. -/
inductive PyValue where
  | none
  | bool (b : Bool)
  | int (n : Int)
  | float (x : Rat)
  | str (s : String)
  | vlist (xs : List PyValue)
  | vdict (entries : List (String × PyValue))
  | vrow (names : List String) (values : List PyValue)
deriving Repr

/-- Modelled from the spec: the closed, recursive `DataType` variant of the
data model (spec section 3), extended with the explicit `conflictType` variant
the spec's design notes prescribe for merge conflicts (spec section 9).  A
struct field is `(name, type, nullable)`. -/
inductive DataType where
  | nullType
  | booleanType
  | integerType (w : Nat)
  | floatType (w : Nat)
  | stringType
  | binaryType
  | timestampType (tz : Option String)
  | conflictType
  | arrayType (e : DataType)
  | structType (fields : List (String × DataType × Bool))
deriving Repr

/-- Shorthand for one struct field: name, type, nullable. -/
abbrev Fld := String × DataType × Bool

/-- True exactly on the `Null` type. -/
def isNullType : DataType → Bool
  | .nullType => true
  | _ => false

/-- True on the non-struct, non-array concrete scalar types (the pyspark
`AtomicType` subclasses). `NullType` is not atomic in pyspark. -/
def isAtomicType : DataType → Bool
  | .booleanType => true
  | .integerType _ => true
  | .floatType _ => true
  | .stringType => true
  | .binaryType => true
  | .timestampType _ => true
  | _ => false

/-- True exactly on struct types. -/
def isStructType : DataType → Bool
  | .structType _ => true
  | _ => false

mutual

/-- Modelled from the spec: the schema merge `_merge_type` (imported by the
source from `pyspark.sql.types`), following spec section 4.3: null absorbs into
any concrete type marking the field nullable, integer widths widen to the max,
integer widens to float, structs merge field-wise by name keeping first-seen
order with one-sided fields becoming nullable, arrays merge element-wise, and
any other disagreement falls through to the explicit conflict variant. -/
def merge : DataType → DataType → DataType
  | .conflictType, _ => .conflictType
  | _, .conflictType => .conflictType
  | .nullType, b => b
  | a, .nullType => a
  | .integerType w1, .integerType w2 => .integerType (max w1 w2)
  | .integerType _, .floatType w => .floatType w
  | .floatType w, .integerType _ => .floatType w
  | .floatType w1, .floatType w2 => .floatType (max w1 w2)
  | .booleanType, .booleanType => .booleanType
  | .stringType, .stringType => .stringType
  | .binaryType, .binaryType => .binaryType
  | .timestampType t1, .timestampType t2 =>
      if t1 = t2 then .timestampType t1 else .conflictType
  | .arrayType e1, .arrayType e2 => .arrayType (merge e1 e2)
  | .structType f1, .structType f2 =>
      .structType
        (mergeCommon f1 f2
          ++ (f2.filter fun g => !(f1.any fun f => f.1 == g.1)).map fun g => (g.1, g.2.1, true))
  | _, _ => .conflictType
termination_by a _ => sizeOf a

/-- Modelled from the spec: the left part of a struct merge — every field of the
left struct, merged with the same-named field of the right struct when present,
kept as-is but marked nullable when absent on the right (spec section 4.3). -/
def mergeCommon : List Fld → List Fld → List Fld
  | [], _ => []
  | (n, t, bn) :: rest, f2 =>
      (match f2.find? fun g => g.1 == n with
       | some g => (n, merge t g.2.1, bn || g.2.2 || isNullType t || isNullType g.2.1)
       | none => (n, t, true)) :: mergeCommon rest f2
termination_by l _ => sizeOf l

end

/-- Per-field combination used by a struct merge: merge with the same-named
field of `f2` when present, otherwise keep the field and mark it nullable. -/
def combineFld (f2 : List Fld) (f : Fld) : Fld :=
  match f2.find? fun g => g.1 == f.1 with
  | some g => (f.1, merge f.2.1 g.2.1, f.2.2 || g.2.2 || isNullType f.2.1 || isNullType g.2.1)
  | none => (f.1, f.2.1, true)

/-- Right-only fields of a struct merge: fields of `f2` whose name does not
occur in `f1`, kept in order and marked nullable. -/
def extrasFld (f1 f2 : List Fld) : List Fld :=
  (f2.filter fun g => !(f1.any fun f => f.1 == g.1)).map fun g => (g.1, g.2.1, true)

/-- Field list produced by merging two structs. -/
def mergeFields (f1 f2 : List Fld) : List Fld :=
  f1.map (combineFld f2) ++ extrasFld f1 f2

/-- Mark a field nullable, dropping its old flag. -/
def tripFld (g : Fld) : Fld := (g.1, g.2.1, true)

/-- Whether a field list contains a field of the given name. -/
def hasNameF (l : List Fld) (n : String) : Bool := l.any fun f => f.1 == n

/-- First field of the given name in a field list. -/
def findNameF (l : List Fld) (n : String) : Option Fld := l.find? fun f => f.1 == n

/-- Modelled from the spec: "integers infer to the narrowest signed integer
width that fits the observed magnitude" (spec section 4.2), over the standard
signed widths 8, 16, 32, 64. -/
def intWidth (n : Int) : Nat :=
  if -(2 ^ 7) ≤ n ∧ n < 2 ^ 7 then 8
  else if -(2 ^ 15) ≤ n ∧ n < 2 ^ 15 then 16
  else if -(2 ^ 31) ≤ n ∧ n < 2 ^ 31 then 32
  else 64

mutual

/-- Modelled from the spec: type inference for one value (part of
`_infer_schema`, imported by the source from `pyspark.sql.types`): booleans,
strings map directly, floating values infer to double-width float, `None`
infers to `Null`, nested sequences recurse into `Array`, and nested mappings
and named records recurse into `Struct` (spec section 4.2), with mapping keys
in sorted order and record fields in declared order (spec section 4.1).
Since the spec's data model requires struct field names to be unique
(spec section 3), duplicate keys keep the last binding (Python mapping
semantics) and duplicate record names keep the first (record field access). -/
def inferValue : PyValue → DataType
  | .none => .nullType
  | .bool _ => .booleanType
  | .int n => .integerType (intWidth n)
  | .float _ => .floatType 64
  | .str _ => .stringType
  | .vlist xs => .arrayType (inferElems xs)
  | .vdict es => .structType (sortByKey (dedupByKeyLast (inferEntries es)))
  | .vrow ns vs => .structType (dedupByKeyFirst (inferNamed ns vs))
termination_by v => sizeOf v

/-- Modelled from the spec: the element type of a nested sequence is the merge
of the inferred types of all its elements (an empty sequence gives `Null`). -/
def inferElems : List PyValue → DataType
  | [] => .nullType
  | v :: rest => merge (inferValue v) (inferElems rest)
termination_by l => sizeOf l

/-- Fields inferred from mapping entries, in entry order. -/
def inferEntries : List (String × PyValue) → List Fld
  | [] => []
  | (n, v) :: rest => (n, inferValue v, true) :: inferEntries rest
termination_by l => sizeOf l

/-- Fields inferred from a named record's names and values, paired
positionally (truncating at the shorter list, like `zip`). -/
def inferNamed : List String → List PyValue → List Fld
  | _, [] => []
  | [], _ :: _ => []
  | n :: ns, v :: vs => (n, inferValue v, true) :: inferNamed ns vs
termination_by _ vs => sizeOf vs

end

/-- One raw record of the input collection: a mapping, a named record (pyspark
`Row`), a positional tuple or list, or a bare scalar.  The constructor is the
classification the source performs with `isinstance` checks. -/
inductive Item where
  | dict (entries : List (String × PyValue))
  | rowRec (names : List String) (values : List PyValue)
  | tuple (values : List PyValue)
  | scalar (v : PyValue)
deriving Repr

/-- Modelled from the spec: names synthesized for a positional row when the
caller supplied none — a single-element row carries the synthetic name
`"value"` (spec section 4.1, matching the source's own single-column naming for
arrays), and wider rows are named positionally `"_1".."_k"` (the convention the
source uses for multi-column arrays). -/
def synthNames (k : Nat) : List String :=
  if k = 1 then ["value"] else (List.range k).map fun i => "_" ++ toString (i + 1)

/-- Modelled from the spec: a caller-supplied name list is padded with
positional names `"_i"` up to the row width and truncated to it, so names and
values pair positionally. -/
def padNames (ns : List String) (k : Nat) : List String :=
  (ns ++ ((List.range k).drop ns.length).map fun i => "_" ++ toString (i + 1)).take k

/-- Modelled from the spec: schema inference for one normalized record
(`_infer_schema`, imported by the source from `pyspark.sql.types`): a mapping
gives a struct over its lexicographically sorted keys, a named record keeps its
declared field order, a positional tuple pairs values with the supplied or
synthesized names, and a bare scalar infers to its atomic type
(spec sections 4.1 and 4.2).  Inferred fields are nullable; duplicate mapping
keys keep the last binding and duplicate record names the first, honouring the
spec's unique-field-name invariant (spec section 3). -/
def inferItem (names : Option (List String)) : Item → DataType
  | .dict es =>
      .structType ((sortByKey (dedupByKeyLast es)).map fun e => (e.1, inferValue e.2, true))
  | .rowRec ns vs =>
      .structType (dedupByKeyFirst ((ns.zip vs).map fun p => (p.1, inferValue p.2, true)))
  | .tuple vs =>
      let ns := match names with
        | some ns => padNames ns vs.length
        | none => synthNames vs.length
      .structType ((ns.zip vs).map fun p => (p.1, inferValue p.2, true))
  | .scalar v => inferValue v

/-- Failure conditions of the conversion, mirroring the `TypeError` and
`ValueError` exceptions raised in `createDataFrame`, the `AttributeError`
Python raises when the dict-normalisation comprehension meets a non-mapping,
and the fatal coercion failure of the materializer (spec section 7's
CoercionError, carrying the offending field's name). -/
inductive ConvError where
  /-- "data is already a DataFrame" -/
  | alreadyDataFrame
  /-- "can not infer schema from empty dataset" -/
  | emptyDataset
  /-- "NumPy array input should be of 1 or 2 dimensions." -/
  | badDimensions
  /-- "Length mismatch: Expected axis has {expected} elements, new values have
  {got} elements" -/
  | lengthMismatch (expected got : Nat)
  /-- "Some of types cannot be determined after inferring, a StructType Schema
  is required in this case" -/
  | schemaRequired
  /-- Python `AttributeError`: `d.items()` called on a non-mapping element while
  sorting a collection whose first record is a mapping. -/
  | attributeError
  /-- Modelled from the spec: a value cannot be cast to its field's resolved
  type (spec section 7), naming the offending field. -/
  | coercionError (field : String)
deriving Repr, DecidableEq

/-- Embedded from `SparkSession._inferSchemaFromList` (session.py lines
157-186): an empty collection is a hard error, otherwise the per-row inferred
types are reduced with the schema merge (Python's `reduce` is a left fold
seeded with the first element). -/
def inferSchemaFromList (data : List Item) (names : Option (List String)) :
    Except ConvError DataType :=
  match data with
  | [] => .error .emptyDataset
  | r :: rs => .ok (rs.foldl (fun acc it => merge acc (inferItem names it)) (inferItem names r))

mutual

/-- Modelled from the spec: the undetermined-schema test (`_has_nulltype`,
imported by the source from `pyspark.sql.types`): a merged schema is
undetermined when a `Null` type remains anywhere inside it, and likewise when a
merge conflict was recorded (spec sections 4.3 and 4.5 defer both to the
finalizer's explicit-schema requirement). -/
def hasNulltype : DataType → Bool
  | .nullType => true
  | .conflictType => true
  | .arrayType e => hasNulltype e
  | .structType fs => hasNulltypeFields fs
  | _ => false
termination_by t => sizeOf t

/-- Field-list part of `hasNulltype`. -/
def hasNulltypeFields : List Fld → Bool
  | [] => false
  | (_, t, _) :: rest => hasNulltype t || hasNulltypeFields rest
termination_by l => sizeOf l

end

/-- Embedded from `createDataFrame` (session.py line 303): Python's `[d]`
wraps an element — whatever its shape — as a one-element positional row whose
single value is the element itself. -/
def wrapItem : Item → Item
  | .dict es => .tuple [.vdict es]
  | .rowRec ns vs => .tuple [.vrow ns vs]
  | .tuple vs => .tuple [.vlist vs]
  | .scalar v => .tuple [v]

/-- Embedded from `createDataFrame` (session.py line 296): the comprehension
`[dict(sorted(d.items())) for d in _data]` re-keys every element in sorted
order; an element that is not a mapping has no `.items()` and raises
`AttributeError`. -/
def sortDictItems : List Item → Except ConvError (List Item)
  | [] => .ok []
  | .dict es :: rest =>
      match sortDictItems rest with
      | .ok r => .ok (.dict (sortByKey (dedupByKeyLast es)) :: r)
      | .error e => .error e
  | _ :: _ => .error .attributeError

/-- Embedded from `createDataFrame` (session.py lines 293-303): when the first
record is a mapping, every record is re-keyed in sorted order (a non-mapping
raises); when the first record is a bare scalar (not a `Row`, tuple, list or
mapping), every record is wrapped as a single-element positional row. -/
def normalizeData (xs : List Item) : Except ConvError (List Item) :=
  match xs.head? with
  | some (.dict _) => sortDictItems xs
  | some (.scalar _) => .ok (xs.map wrapItem)
  | _ => .ok xs

/-- Modelled from the spec: a Python `None` value becomes a null cell in the
materialized column; any other value is stored as-is (spec section 4.4). -/
def toCell : PyValue → Option PyValue
  | .none => .none
  | v => some v

/-- Modelled from the spec: the raw value a row contributes to the column of
field number `j` named `n` — addressed by name for mappings (last binding) and
named records (first binding), by position for tuples, with `None` standing
for a missing or absent value (spec section 4.4). -/
def rawCell : Item → Nat → String → PyValue
  | .dict es, _, n => (((dedupByKeyLast es).find? fun e => e.1 == n).map fun e => e.2).getD .none
  | .rowRec ns vs, _, n => (((ns.zip vs).find? fun e => e.1 == n).map fun e => e.2).getD .none
  | .tuple vs, j, _ => vs.getD j .none
  | .scalar v, j, _ => if j = 0 then v else .none

/-- Modelled from the spec: field access inside a nested record value, by name
for mappings (last binding) and named records (first binding), by position for
sequences; `None` stands for a missing value. -/
def valueFieldAt : PyValue → Nat → String → PyValue
  | .vdict es, _, n => (((dedupByKeyLast es).find? fun e => e.1 == n).map fun e => e.2).getD .none
  | .vrow ns vs, _, n => (((ns.zip vs).find? fun e => e.1 == n).map fun e => e.2).getD .none
  | .vlist vs, j, _ => vs.getD j .none
  | _, _, _ => .none

/-- Values that can populate a struct-typed field: mappings, named records and
positional sequences. -/
def isRecordValue : PyValue → Bool
  | .vdict _ => true
  | .vrow _ _ => true
  | .vlist _ => true
  | _ => false

mutual

/-- Modelled from the spec: whether a value can be cast to a field's resolved
type (spec sections 4.4 and 7).  `None` always materializes as a null; the
numeric upcast accepts an integer wherever a float (or wider integer) is
resolved; nested struct and array fields are checked recursively, extracting
sub-values by name or position with null insertion for missing ones.  Widths
live in the type, and the Arrow-side representation change of an upcast carries
no information in the value model, so a cast that succeeds keeps the source
payload; a value that cannot be cast is spec section 7's fatal CoercionError.
With `lenient` set, a conflict-typed position accepts anything — a proof-side
relaxation used for merge-accumulation invariants, never by the engine. -/
def checkWith (lenient : Bool) : DataType → PyValue → Bool
  | _, .none => true
  | .conflictType, _ => lenient
  | .booleanType, .bool _ => true
  | .integerType _, .int _ => true
  | .floatType _, .int _ => true
  | .floatType _, .float _ => true
  | .stringType, .str _ => true
  | .arrayType e, .vlist xs => checkElems lenient e xs
  | .structType fs, v => if isRecordValue v then checkFields lenient fs 0 v else false
  | _, _ => false
termination_by t v => (sizeOf t, sizeOf v)

/-- Element-wise check of a sequence against an array's element type. -/
def checkElems (lenient : Bool) (e : DataType) : List PyValue → Bool
  | [] => true
  | x :: rest => checkWith lenient e x && checkElems lenient e rest
termination_by l => (sizeOf e, sizeOf l)

/-- Field-wise check of a record value against a struct's fields, `j` being
the position of the first remaining field. -/
def checkFields (lenient : Bool) : List Fld → Nat → PyValue → Bool
  | [], _, _ => true
  | (n, t, _) :: rest, j, v =>
      checkWith lenient t (valueFieldAt v j n) && checkFields lenient rest (j + 1) v
termination_by fs _ v => (sizeOf fs, sizeOf v)

end

/-- The engine's coercion check: strict at every position. -/
def coerceOk : DataType → PyValue → Bool := checkWith false

mutual

/-- Structural coverage of a value by a type: every field the value carries is
known to the type (recursively), and a positional sequence fits inside a
struct only through the sequence/array reading.  An invariant of
merge-accumulated inferred types, used to reason about inference, not by the
engine. -/
def covers : DataType → PyValue → Bool
  | _, .none => true
  | .arrayType e, .vlist xs => coversElems e xs
  | .structType fs, .vdict es => coversLast fs es
  | .structType fs, .vrow ns vs => coversFirst fs [] ns vs
  | .structType _, .vlist _ => false
  | _, _ => true
termination_by _ v => sizeOf v

/-- Element-wise coverage of a sequence by an array's element type. -/
def coversElems (e : DataType) : List PyValue → Bool
  | [] => true
  | x :: rest => covers e x && coversElems e rest
termination_by l => sizeOf l

/-- Coverage of mapping entries by struct fields: an entry overridden by a
later binding of the same key is exempt, every other entry must name a field
that covers its value. -/
def coversLast (fs : List Fld) : List (String × PyValue) → Bool
  | [] => true
  | (n, v) :: rest =>
      ((rest.any fun q => q.1 == n) ||
        match fs.find? fun f => f.1 == n with
        | some f => covers f.2.1 v
        | none => false) &&
      coversLast fs rest
termination_by l => sizeOf l

/-- Coverage of a named record's fields, paired positionally, by struct
fields: an entry shadowed by an earlier binding of the same name is exempt,
every other entry must name a field that covers its value. -/
def coversFirst (fs : List Fld) (seen : List String) : List String → List PyValue → Bool
  | _, [] => true
  | [], _ :: _ => true
  | n :: ns, v :: vs =>
      ((seen.any fun s => s == n) ||
        match fs.find? fun f => f.1 == n with
        | some f => covers f.2.1 v
        | none => false) &&
      coversFirst fs (n :: seen) ns vs
termination_by _ vs => sizeOf vs

end

mutual

/-- Recursive well-formedness of a type: struct field names are unique at
every level (the invariant of the spec's data model, section 3). -/
def wfNames : DataType → Bool
  | .arrayType e => wfNames e
  | .structType fs => nodupNames (fs.map fun f => f.1) && wfFields fs
  | _ => true
termination_by t => sizeOf t

/-- Field-list part of `wfNames`. -/
def wfFields : List Fld → Bool
  | [] => true
  | (_, t, _) :: rest => wfNames t && wfFields rest
termination_by l => sizeOf l

end

/-- One materialized table: named columns of equal length, a null cell being
`Option.none`. -/
abbrev Table := List (String × List (Option PyValue))

/-- Column names of a table. -/
def tableColNames (t : Table) : List String := t.map (·.1)

/-- Modelled from the spec: one cell of the materializer — the row's raw value
for the field, checked against the field's resolved type; a `None` (or
missing) value materializes as a null whatever the field's declared
nullability, and an incoercible value is the fatal CoercionError naming the
field (spec sections 4.4 and 7). -/
def extractCellE (it : Item) (j : Nat) (f : Fld) : Except ConvError (Option PyValue) :=
  if coerceOk f.2.1 (rawCell it j f.1) then .ok (toCell (rawCell it j f.1))
  else .error (.coercionError f.1)

/-- Modelled from the spec: one column of the materializer — the field's cell
from every row, stopping at the first coercion failure (spec section 7: one
pass, first fatal condition reported). -/
def materializeCol (f : Fld) (j : Nat) : List Item → Except ConvError (List (Option PyValue))
  | [] => .ok []
  | r :: rest =>
      match extractCellE r j f, materializeCol f j rest with
      | .ok c, .ok cs => .ok (c :: cs)
      | .error e, _ => .error e
      | _, .error e => .error e

/-- Modelled from the spec: the columnar materializer
(`LocalDataToArrowConversion.convert`, imported by the source from
`pyspark.sql.connect.conversion`), builds one column per schema field
(spec section 4.4); `j` is the position of the first remaining field. -/
def materializeFrom (rows : List Item) : Nat → List Fld → Except ConvError Table
  | _, [] => .ok []
  | j, f :: rest =>
      match materializeCol f j rows, materializeFrom rows (j + 1) rest with
      | .ok cs, .ok t => .ok ((f.1, cs) :: t)
      | .error e, _ => .error e
      | _, .error e => .error e

/-- Materialize the full row collection under a struct field list. -/
def materialize (rows : List Item) (fs : List Fld) : Except ConvError Table :=
  materializeFrom rows 0 fs

/-- Materialize under a resolved schema: a struct materializes field-wise; a
non-struct resolved type (a bare scalar collection before wrapping, unreachable
in the conversion flow) is a single `value` column. -/
def materializeDT (rows : List Item) : DataType → Except ConvError Table
  | .structType fs => materialize rows fs
  | t => (materializeCol ("value", t, true) 0 rows).map fun cs => [("value", cs)]

/-- Homogeneous numpy array input.  A 1-D array is a flat value list, a 2-D
array carries its trailing-axis length (`shape[1]`) and its rows, and
`arrHigher` stands for an array of three or more dimensions, carrying only its
shape (its contents are rejected before being read).  0-d arrays are outside
the model (Python's `len()` is undefined on them). -/
inductive NDArray where
  | arr1 (xs : List PyValue)
  | arr2 (ncols : Nat) (rows : List (List PyValue))
  | arrHigher (shape : List Nat)
deriving Repr

/-- Python's `len()` of an ndarray: the length of the first axis. -/
def NDArray.len : NDArray → Nat
  | .arr1 xs => xs.length
  | .arr2 _ rows => rows.length
  | .arrHigher shape => shape.headD 0

/-- Embedded from `createDataFrame` (session.py lines 265-269): default column
names when the caller supplied none — `"value"` for a 1-D array or a 2-D array
with one column, else `"_1".."_N"`. -/
def NDArray.defaultCols : NDArray → List String
  | .arr1 _ => ["value"]
  | .arr2 ncols _ =>
      if ncols = 1 then ["value"]
      else (List.range ncols).map fun i => "_" ++ toString (i + 1)
  | .arrHigher _ => []

/-- The schema argument accepted by `createDataFrame`: a `DataType` instance
(atomic or struct), a DDL schema string, or a column-name list. -/
inductive SchemaSpec where
  | dt (t : DataType)
  | ddl (s : String)
  | names (ns : List String)
deriving Repr

/-- Embedded from `createDataFrame` (session.py lines 202-207): `_schema` is
set only when the argument is an `AtomicType` or `StructType` instance. -/
def schemaDTOf : Option SchemaSpec → Option DataType
  | some (.dt t) => if isAtomicType t || isStructType t then some t else none
  | _ => none

/-- Embedded from `createDataFrame` (session.py lines 209-210): `_schema_str`
is set when the argument is a string. -/
def schemaStrOf : Option SchemaSpec → Option String
  | some (.ddl s) => some s
  | _ => none

/-- Embedded from `createDataFrame` (session.py lines 212-215): `_cols` is set
when the argument is a list or tuple of names. -/
def schemaColsOf : Option SchemaSpec → Option (List String)
  | some (.names ns) => some ns
  | _ => none

/-- Embedded from `createDataFrame` (session.py lines 202-215): `_num_cols`,
the caller-declared expected column count — the field count of an explicit
struct, 1 for an atomic type, or the length of a name list. -/
def schemaNumColsOf : Option SchemaSpec → Option Nat
  | some (.dt (.structType fs)) => some fs.length
  | some (.dt t) => if isAtomicType t then some 1 else none
  | some (.names ns) => some ns.length
  | _ => none

/-- The input of `createDataFrame` as modelled here: an existing DataFrame, a
numpy array, or an iterable of records.  (The pandas-frame path is outside the
claims and not modelled.) -/
inductive InputData where
  | dataframe
  | ndarray (a : NDArray)
  | items (xs : List Item)
deriving Repr

/-- Python's `len(data)` for the sized inputs of the model. -/
def dataLen : InputData → Nat
  | .dataframe => 0
  | .ndarray a => a.len
  | .items xs => xs.length

/-- Successful output of the conversion: the materialized arrow table (absent
for the empty-input early return, making a zero-row relation), the explicit
`DataType` schema or DDL schema string attached to the local relation, and the
column-name list applied by the final `toDF` rename, each when present. -/
structure ConvResult where
  table : Option Table
  schemaType : Option DataType
  schemaStr : Option String
  renamedTo : Option (List String)
deriving Repr

/-- Row count of a conversion result: zero when no table was materialized
(the empty-input early return), else the first column's length. -/
def ConvResult.rowCount (r : ConvResult) : Nat :=
  match r.table with
  | some t => ((t.headD ("", [])).2).length
  | none => 0

/-- Embedded from `createDataFrame` (session.py lines 261-323): the table
construction stage.  A numpy array of bad dimensionality is rejected; a numpy
array is materialized column-wise after validating the column-name count
against its shape (with the error naming the array's count and the name
count); a record collection is normalized (which can itself fail), its schema
inferred and merge-reduced, an undetermined schema falls back to an explicit
struct schema or fails, and the rows are materialized under the resolved
schema with the fatal coercion check.  Returns the table together with the
final `_cols` value. -/
def buildTable (data : InputData) (cols0 : Option (List String))
    (pschema : Option DataType) :
    Except ConvError (Table × Option (List String)) :=
  match data with
  | .dataframe => .error .alreadyDataFrame
  | .ndarray a =>
      match a with
      | .arrHigher _ => .error .badDimensions
      | .arr1 xs =>
          let cols := cols0.getD (NDArray.arr1 xs).defaultCols
          match cols with
          | [c] => .ok ([(c, xs.map toCell)], some [c])
          | _ => .error (.lengthMismatch 1 cols.length)
      | .arr2 ncols rows =>
          let cols := cols0.getD (NDArray.arr2 ncols rows).defaultCols
          if cols.length = ncols then
            .ok
              (cols.zip ((List.range ncols).map fun i => rows.map fun r => toCell (r.getD i .none)),
               some cols)
          else .error (.lengthMismatch ncols cols.length)
  | .items xs =>
      match normalizeData xs with
      | .error e => .error e
      | .ok d =>
          match inferSchemaFromList d cols0 with
          | .error e => .error e
          | .ok inferred =>
              if hasNulltype inferred then
                match pschema with
                | some (.structType fs) =>
                    match materialize d fs with
                    | .ok tbl => .ok (tbl, cols0)
                    | .error e => .error e
                | _ => .error .schemaRequired
              else
                match materializeDT d inferred with
                | .ok tbl => .ok (tbl, cols0)
                | .error e => .error e

/-- Embedded from `createDataFrame` (session.py lines 333-340): the final
result carries the explicit `DataType` schema when one was given, else the DDL
schema string, else a `toDF` rename to the non-empty final column list, else
the bare table. -/
def finishResult (t : Table) (ps : Option DataType) (pstr : Option String)
    (colsF : Option (List String)) : Except ConvError ConvResult :=
  match ps with
  | some dtv => .ok ⟨some t, some dtv, none, none⟩
  | none =>
      match pstr with
      | some s => .ok ⟨some t, none, some s, none⟩
      | none =>
          match colsF with
          | some cs =>
              if 0 < cs.length then .ok ⟨some t, none, none, some cs⟩
              else .ok ⟨some t, none, none, none⟩
          | none => .ok ⟨some t, none, none, none⟩

/-- Embedded from `createDataFrame` (session.py lines 188-340): reject an input
that is already a DataFrame; classify the schema argument; return a zero-row
relation (or fail) on an empty sized input; build the table; enforce the
declared column count against the materialized column count, with the error
naming both; and attach the schema to the result. -/
def convert (data : InputData) (schema : Option SchemaSpec) : Except ConvError ConvResult :=
  match data with
  | .dataframe => .error .alreadyDataFrame
  | _ =>
      let ps := schemaDTOf schema
      let pstr := schemaStrOf schema
      let cols0 := schemaColsOf schema
      let ncols := schemaNumColsOf schema
      if dataLen data = 0 then
        match ps with
        | some t => .ok ⟨none, some t, none, none⟩
        | none =>
            match pstr with
            | some s => .ok ⟨none, none, some s, none⟩
            | none => .error .emptyDataset
      else
        match buildTable data cols0 ps with
        | .error e => .error e
        | .ok (t, colsF) =>
            match ncols with
            | some n =>
                if n = t.length then finishResult t ps pstr colsF
                else .error (.lengthMismatch n t.length)
            | none => finishResult t ps pstr colsF

/-- Merge-reduction of the inferred per-row schemas of a collection that
normalizes without error to a non-empty list (`nullType` otherwise); the value
`_inferSchemaFromList` computes inside `createDataFrame`. -/
def inferredSchemaOf (rows : List Item) (names : Option (List String)) : DataType :=
  match normalizeData rows with
  | .ok (r :: rs) => rs.foldl (fun acc it => merge acc (inferItem names it)) (inferItem names r)
  | _ => .nullType
theorem mergeCommon_eq_map (f1 f2 : List Fld) : mergeCommon f1 f2 = f1.map (combineFld f2) := by
  induction f1 with
  | nil => rw [mergeCommon]; rfl
  | cons f rest ih =>
      obtain ⟨n, t, bn⟩ := f
      rw [mergeCommon, ih]
      rfl

theorem merge_struct (f1 f2 : List Fld) :
    merge (.structType f1) (.structType f2) = .structType (mergeFields f1 f2) := by
  rw [merge, mergeFields, mergeCommon_eq_map, extrasFld]

theorem extrasFld_eq (f1 f2 : List Fld) :
    extrasFld f1 f2 = (f2.filter fun g => !hasNameF f1 g.1).map tripFld := rfl

theorem combineFld_of_some {f2 : List Fld} {f : Fld} {g : Fld}
    (h : findNameF f2 f.1 = some g) :
    combineFld f2 f =
      (f.1, merge f.2.1 g.2.1, f.2.2 || g.2.2 || isNullType f.2.1 || isNullType g.2.1) := by
  unfold combineFld
  rw [show (f2.find? fun g => g.1 == f.1) = findNameF f2 f.1 from rfl, h]

theorem combineFld_of_none {f2 : List Fld} {f : Fld}
    (h : findNameF f2 f.1 = none) :
    combineFld f2 f = (f.1, f.2.1, true) := by
  unfold combineFld
  rw [show (f2.find? fun g => g.1 == f.1) = findNameF f2 f.1 from rfl, h]

theorem combineFld_fst (f2 : List Fld) (f : Fld) : (combineFld f2 f).1 = f.1 := by
  cases h : findNameF f2 f.1 with
  | some g => rw [combineFld_of_some h]
  | none => rw [combineFld_of_none h]

theorem tripFld_fst (g : Fld) : (tripFld g).1 = g.1 := rfl

theorem tripFld_tripFld (g : Fld) : tripFld (tripFld g) = tripFld g := rfl

theorem merge_conflict_left (b : DataType) : merge .conflictType b = .conflictType := by
  cases b <;> simp [merge]

theorem merge_conflict_right (a : DataType) : merge a .conflictType = .conflictType := by
  cases a <;> simp [merge]

theorem merge_null_left (b : DataType) : merge .nullType b = b := by
  cases b <;> simp [merge]

theorem merge_null_right (a : DataType) : merge a .nullType = a := by
  cases a <;> simp [merge]

theorem isNullType_merge (a b : DataType) :
    isNullType (merge a b) = (isNullType a && isNullType b) := by
  cases a <;> cases b <;> first
    | (simp [merge, isNullType]; done)
    | (rw [merge]; split <;> rfl)

theorem findNameF_append (l1 l2 : List Fld) (n : String) :
    findNameF (l1 ++ l2) n = (findNameF l1 n).or (findNameF l2 n) := by
  unfold findNameF
  exact List.find?_append ..

theorem findNameF_map (l : List Fld) (c : Fld → Fld) (hc : ∀ g, (c g).1 = g.1) (n : String) :
    findNameF (l.map c) n = (findNameF l n).map c := by
  unfold findNameF
  have hp : ((fun f : Fld => f.1 == n) ∘ c) = fun f : Fld => f.1 == n := by
    funext g
    simp [Function.comp, hc]
  rw [List.find?_map, hp]

theorem hasNameF_append (l1 l2 : List Fld) (n : String) :
    hasNameF (l1 ++ l2) n = (hasNameF l1 n || hasNameF l2 n) := by
  unfold hasNameF
  exact List.any_append

theorem hasNameF_map (l : List Fld) (c : Fld → Fld) (hc : ∀ g, (c g).1 = g.1) (n : String) :
    hasNameF (l.map c) n = hasNameF l n := by
  unfold hasNameF
  have hp : ((fun f : Fld => f.1 == n) ∘ c) = fun f : Fld => f.1 == n := by
    funext g
    simp [Function.comp, hc]
  rw [List.any_map, hp]

theorem findNameF_isSome (l : List Fld) (n : String) :
    (findNameF l n).isSome = hasNameF l n := by
  induction l with
  | nil => rfl
  | cons f rest ih =>
      unfold findNameF hasNameF at *
      cases h : f.1 == n <;> simp [List.find?_cons, List.any_cons, h, ih]

theorem findNameF_eq_none {l : List Fld} {n : String} (h : hasNameF l n = false) :
    findNameF l n = none := by
  have := findNameF_isSome l n
  rw [h] at this
  exact Option.not_isSome_iff_eq_none.mp (by simp [this])

theorem findNameF_filter (l : List Fld) (q : Fld → Bool) (n : String)
    (h : ∀ g : Fld, g.1 = n → q g = true) :
    findNameF (l.filter q) n = findNameF l n := by
  induction l with
  | nil => rfl
  | cons g rest ih =>
      unfold findNameF at *
      cases hn : g.1 == n with
      | true =>
          have hq : q g = true := h g (by simpa using hn)
          simp [List.filter_cons, hq, List.find?_cons, hn]
      | false =>
          cases hq : q g <;> simp [List.filter_cons, hq, List.find?_cons, hn, ih]

theorem hasNameF_filter (l : List Fld) (q : Fld → Bool) (n : String) :
    hasNameF (l.filter q) n = l.any fun g => (g.1 == n) && q g := by
  induction l with
  | nil => rfl
  | cons g rest ih =>
      unfold hasNameF at *
      cases hq : q g <;> cases hn : g.1 == n <;>
        simp [List.filter_cons, hq, List.any_cons, hn, ih]

theorem any_name_and (l : List Fld) (n : String) (p : String → Bool) :
    (l.any fun g => (g.1 == n) && p g.1) = (hasNameF l n && p n) := by
  induction l with
  | nil => rfl
  | cons g rest ih =>
      unfold hasNameF at *
      cases hn : g.1 == n with
      | true =>
          have : g.1 = n := by simpa using hn
          subst this
          cases hp : p g.1 <;> simp [List.any_cons, hn, hp, ih]
      | false => simp [List.any_cons, hn, ih]

theorem combineFld_tripFld (f3 : List Fld) (g : Fld) :
    combineFld f3 (tripFld g) = tripFld (combineFld f3 g) := by
  cases h3 : findNameF f3 g.1 with
  | some hf =>
      rw [combineFld_of_some (f := tripFld g) (by rw [tripFld_fst]; exact h3),
        combineFld_of_some h3]
      rfl
  | none =>
      rw [combineFld_of_none (f := tripFld g) (by rw [tripFld_fst]; exact h3),
        combineFld_of_none h3]
      rfl

theorem bool_taut_nullable (b1 b2 b3 x1 x2 x3 : Bool) :
    ((b1 || b2 || x1 || x2) || b3 || (x1 && x2) || x3)
      = (b1 || (b2 || b3 || x2 || x3) || x1 || (x2 && x3)) := by
  cases b1 <;> cases b2 <;> cases b3 <;> cases x1 <;> cases x2 <;> cases x3 <;> rfl

theorem combineFld_assoc (f2 f3 : List Fld) (f : Fld)
    (IH : ∀ x y, merge (merge f.2.1 x) y = merge f.2.1 (merge x y)) :
    combineFld f3 (combineFld f2 f) = combineFld (mergeFields f2 f3) f := by
  obtain ⟨n, t, bn⟩ := f
  cases h2 : findNameF f2 n with
  | some g =>
      have hfind : findNameF (mergeFields f2 f3) n = some (combineFld f3 g) := by
        rw [mergeFields, findNameF_append, findNameF_map f2 (combineFld f3) (combineFld_fst f3) n,
          h2]
        rfl
      have hg1 : g.1 = n := by
        have := List.find?_some h2
        simpa using this
      rw [combineFld_of_some (f := (n, t, bn)) h2, combineFld_of_some (f := (n, t, bn)) hfind]
      cases h3 : findNameF f3 n with
      | some hf =>
          rw [combineFld_of_some (f := (n, merge t g.2.1,
                bn || g.2.2 || isNullType t || isNullType g.2.1)) h3,
            combineFld_of_some (f := g) (by rw [hg1]; exact h3)]
          refine Prod.ext rfl (Prod.ext ?_ ?_)
          · exact IH g.2.1 hf.2.1
          · show ((bn || g.2.2 || isNullType t || isNullType g.2.1) || hf.2.2
                || isNullType (merge t g.2.1) || isNullType hf.2.1)
              = (bn || (g.2.2 || hf.2.2 || isNullType g.2.1 || isNullType hf.2.1)
                || isNullType t || isNullType (merge g.2.1 hf.2.1))
            rw [isNullType_merge, isNullType_merge]
            exact bool_taut_nullable bn g.2.2 hf.2.2 (isNullType t) (isNullType g.2.1)
              (isNullType hf.2.1)
      | none =>
          rw [combineFld_of_none (f := (n, merge t g.2.1,
                bn || g.2.2 || isNullType t || isNullType g.2.1)) h3,
            combineFld_of_none (f := g) (by rw [hg1]; exact h3)]
          simp
  | none =>
      have hno2 : hasNameF f2 n = false := by
        have := findNameF_isSome f2 n
        rw [h2] at this
        simpa using this.symm
      have hextras : findNameF (extrasFld f2 f3) n = (findNameF f3 n).map tripFld := by
        rw [extrasFld_eq, findNameF_map _ tripFld tripFld_fst n,
          findNameF_filter f3 _ n fun g hg => by rw [hg, hno2]; rfl]
      have hfind : findNameF (mergeFields f2 f3) n = (findNameF f3 n).map tripFld := by
        rw [mergeFields, findNameF_append, findNameF_map f2 (combineFld f3) (combineFld_fst f3) n,
          h2, hextras]
        rfl
      rw [combineFld_of_none (f := (n, t, bn)) h2]
      cases h3 : findNameF f3 n with
      | some hf =>
          rw [combineFld_of_some (f := (n, t, bn)) (by rw [hfind, h3]; rfl),
            combineFld_of_some (f := (n, t, true)) h3]
          simp [tripFld]
      | none =>
          rw [combineFld_of_none (f := (n, t, bn)) (by rw [hfind, h3]; rfl),
            combineFld_of_none (f := (n, t, true)) h3]

theorem mergeFields_assoc (f1 f2 f3 : List Fld)
    (IH : ∀ f ∈ f1, ∀ x y, merge (merge f.2.1 x) y = merge f.2.1 (merge x y)) :
    mergeFields (mergeFields f1 f2) f3 = mergeFields f1 (mergeFields f2 f3) := by
  have hnames : ∀ m, hasNameF (mergeFields f1 f2) m = (hasNameF f1 m || hasNameF f2 m) := by
    intro m
    rw [mergeFields, hasNameF_append, hasNameF_map f1 (combineFld f2) (combineFld_fst f2) m,
      extrasFld_eq, hasNameF_map _ tripFld tripFld_fst m, hasNameF_filter,
      any_name_and f2 m fun s => !hasNameF f1 s]
    cases h1 : hasNameF f1 m <;> cases h2 : hasNameF f2 m <;> rfl
  have hA : f1.map (combineFld f3 ∘ combineFld f2)
      = f1.map (combineFld (mergeFields f2 f3)) :=
    List.map_congr_left fun f hf => combineFld_assoc f2 f3 f (IH f hf)
  have hB : (extrasFld f1 f2).map (combineFld f3)
      = ((f2.map (combineFld f3)).filter fun x => !hasNameF f1 x.1).map tripFld := by
    rw [extrasFld_eq, List.map_map, List.filter_map, List.map_map]
    rw [show ((fun x : Fld => !hasNameF f1 x.1) ∘ combineFld f3)
        = fun g : Fld => !hasNameF f1 g.1 from
      funext fun g => by simp [Function.comp, combineFld_fst]]
    exact List.map_congr_left fun g _ => by
      simp [Function.comp, combineFld_tripFld]
  have hC : extrasFld (mergeFields f1 f2) f3
      = ((extrasFld f2 f3).filter fun x => !hasNameF f1 x.1).map tripFld := by
    rw [extrasFld_eq (mergeFields f1 f2) f3, extrasFld_eq f2 f3, List.filter_map,
      List.map_map, List.filter_filter]
    rw [show (tripFld ∘ tripFld) = tripFld from funext fun g => tripFld_tripFld g]
    congr 1
    apply List.filter_congr
    intro g _
    rw [hnames g.1]
    show (!(hasNameF f1 g.1 || hasNameF f2 g.1))
      = ((!hasNameF f1 (tripFld g).1) && !hasNameF f2 g.1)
    rw [tripFld_fst]
    cases hasNameF f1 g.1 <;> cases hasNameF f2 g.1 <;> rfl
  calc mergeFields (mergeFields f1 f2) f3
      = (f1.map (combineFld f2) ++ extrasFld f1 f2).map (combineFld f3)
          ++ extrasFld (mergeFields f1 f2) f3 := rfl
    _ = f1.map (combineFld f3 ∘ combineFld f2)
          ++ ((extrasFld f1 f2).map (combineFld f3)
          ++ extrasFld (mergeFields f1 f2) f3) := by
        rw [List.map_append, List.map_map, List.append_assoc]
    _ = f1.map (combineFld (mergeFields f2 f3))
          ++ (((f2.map (combineFld f3)).filter fun x => !hasNameF f1 x.1).map tripFld
          ++ ((extrasFld f2 f3).filter fun x => !hasNameF f1 x.1).map tripFld) := by
        rw [hA, hB, hC]
    _ = f1.map (combineFld (mergeFields f2 f3))
          ++ ((mergeFields f2 f3).filter fun x => !hasNameF f1 x.1).map tripFld := by
        rw [mergeFields, List.filter_append, List.map_append]
    _ = mergeFields f1 (mergeFields f2 f3) := rfl

theorem merge_assoc (a b c : DataType) : merge (merge a b) c = merge a (merge b c) := by
  suffices H : ∀ k (a : DataType), sizeOf a ≤ k →
      ∀ b c, merge (merge a b) c = merge a (merge b c) by
    exact H (sizeOf a) a le_rfl b c
  intro k
  induction k with
  | zero =>
      intro a ha
      exfalso
      cases a <;> simp_arith at ha
  | succ k ih =>
      intro a ha b c
      cases a with
      | conflictType => rw [merge_conflict_left, merge_conflict_left, merge_conflict_left]
      | nullType => rw [merge_null_left, merge_null_left]
      | arrayType e1 =>
          have he : sizeOf e1 ≤ k := by simp_arith at ha; omega
          cases b <;> cases c <;> first
            | (simp [merge, merge_conflict_left, merge_conflict_right, merge_null_left,
                merge_null_right]; done)
            | (simp [merge]; exact ih e1 he _ _)
            | (simp [merge, merge_conflict_left, merge_conflict_right, merge_null_left,
                merge_null_right]
               split <;>
                 simp_all [merge, merge_conflict_left, merge_conflict_right, merge_null_left,
                   merge_null_right])
      | structType f1 =>
          have hf : ∀ f ∈ f1, ∀ x y, merge (merge f.2.1 x) y = merge f.2.1 (merge x y) := by
            intro f hfm x y
            refine ih f.2.1 ?_ x y
            have h1 := List.sizeOf_lt_of_mem hfm
            obtain ⟨n, t, bfl⟩ := f
            simp_arith at ha h1 ⊢
            omega
          cases b <;> cases c <;> first
            | (simp [merge, merge_conflict_left, merge_conflict_right, merge_null_left,
                merge_null_right]; done)
            | (rw [merge_struct, merge_struct, merge_struct, merge_struct,
                mergeFields_assoc f1 _ _ hf])
            | (simp [merge, merge_conflict_left, merge_conflict_right, merge_null_left,
                merge_null_right]
               split <;>
                 simp_all [merge, merge_conflict_left, merge_conflict_right, merge_null_left,
                   merge_null_right])
      | _ =>
          cases b <;> cases c <;> first
            | (simp [merge, merge_conflict_left, merge_conflict_right, merge_null_left,
                merge_null_right, Nat.max_assoc]; done)
            | (simp [merge, merge_conflict_left, merge_conflict_right, merge_null_left,
                merge_null_right, Nat.max_assoc]
               split <;> (try split) <;>
                 simp_all [merge, merge_conflict_left, merge_conflict_right, merge_null_left,
                   merge_null_right, Nat.max_assoc])


theorem any_map_poly {α β : Type} (l : List α) (f : α → β) (p : β → Bool) :
    (l.map f).any p = l.any fun a => p (f a) := by
  induction l with
  | nil => rfl
  | cons x rest ih => simp [List.map_cons, List.any_cons, ih]

theorem filter_swap {α : Type} (l : List α) (p q : α → Bool) :
    (l.filter p).filter q = (l.filter q).filter p := by
  induction l with
  | nil => rfl
  | cons x rest ih => cases hp : p x <;> cases hq : q x <;>
      simp [List.filter_cons, hp, hq, ih]

theorem find?_filter_comm {α : Type} (l : List α) (p q : α → Bool)
    (h : ∀ x, q x = true → p x = true) : (l.filter p).find? q = l.find? q := by
  induction l with
  | nil => rfl
  | cons x rest ih =>
      cases hq : q x with
      | true =>
          have hp := h x hq
          simp [List.filter_cons, hp, List.find?_cons, hq]
      | false =>
          cases hp : p x <;> simp [List.filter_cons, hp, List.find?_cons, hq, ih]

theorem nodupNames_iff {l : List String} : nodupNames l = true ↔ l.Nodup := by
  induction l with
  | nil => simp [nodupNames]
  | cons n rest ih =>
      simp only [nodupNames, Bool.and_eq_true, Bool.not_eq_true', List.any_eq_false,
        List.nodup_cons, ih, beq_iff_eq]
      constructor
      · exact fun h => ⟨fun hm => h.1 n hm rfl, h.2⟩
      · exact fun h => ⟨fun m hm he => h.1 (he ▸ hm), h.2⟩

theorem dedupLast_subset {α : Type} {x : String × α} :
    ∀ {l : List (String × α)}, x ∈ dedupByKeyLast l → x ∈ l := by
  intro l
  induction l with
  | nil => intro hx; simpa [dedupByKeyLast] using hx
  | cons e rest ih =>
      intro hx
      rw [dedupByKeyLast] at hx
      split at hx
      · exact List.mem_cons_of_mem _ (ih hx)
      · rcases List.mem_cons.mp hx with h | h
        · exact h ▸ List.mem_cons_self _ _
        · exact List.mem_cons_of_mem _ (ih h)

theorem dedupLast_keys_nodup {α : Type} (l : List (String × α)) :
    ((dedupByKeyLast l).map Prod.fst).Nodup := by
  induction l with
  | nil => simp [dedupByKeyLast]
  | cons e rest ih =>
      rw [dedupByKeyLast]
      split
      · exact ih
      · rename_i hany
        simp only [List.map_cons, List.nodup_cons]
        refine ⟨?_, ih⟩
        intro hmem
        rcases List.mem_map.mp hmem with ⟨q, hq, hq1⟩
        have hqr : q ∈ rest := dedupLast_subset hq
        have : rest.any (fun q => q.1 == e.1) = true :=
          List.any_eq_true.mpr ⟨q, hqr, by simp [hq1]⟩
        simp [this] at hany

theorem dedupLast_of_nodupKeys {α : Type} {l : List (String × α)}
    (h : (l.map Prod.fst).Nodup) : dedupByKeyLast l = l := by
  induction l with
  | nil => rfl
  | cons e rest ih =>
      simp only [List.map_cons, List.nodup_cons] at h
      rw [dedupByKeyLast]
      have hany : (rest.any fun q => q.1 == e.1) = false := by
        rw [List.any_eq_false]
        intro q hq hbeq
        exact h.1 (List.mem_map.mpr ⟨q, hq, by simpa using hbeq⟩)
      simp [hany, ih h.2]

theorem find_key_of_mem_nodupKeys {α : Type} {l : List (String × α)} {x : String × α}
    (h : (l.map Prod.fst).Nodup) (hx : x ∈ l) :
    l.find? (fun q => q.1 == x.1) = some x := by
  induction l with
  | nil => simp at hx
  | cons e rest ih =>
      simp only [List.map_cons, List.nodup_cons] at h
      rcases List.mem_cons.mp hx with rfl | hx2
      · simp [List.find?_cons]
      · have hne : (e.1 == x.1) = false := by
          rw [beq_eq_false_iff_ne]
          intro he
          exact h.1 (List.mem_map.mpr ⟨x, hx2, he.symm⟩)
        rw [List.find?_cons_of_neg _ (by simp [hne]), ih h.2 hx2]

theorem dedupFirst_subset {α : Type} :
    ∀ (l : List (String × α)) (x : String × α), x ∈ dedupByKeyFirst l → x ∈ l
  | [], x, hx => by simp [dedupByKeyFirst] at hx
  | e :: rest, x, hx => by
      rw [dedupByKeyFirst] at hx
      rcases List.mem_cons.mp hx with h | h
      · exact h ▸ List.mem_cons_self _ _
      · exact List.mem_cons_of_mem _
          (List.mem_of_mem_filter (dedupFirst_subset _ x h))
termination_by l => l.length
decreasing_by
  simp only [List.length_cons]
  exact Nat.lt_succ_of_le (List.length_filter_le _ _)

theorem dedupFirst_filter {α : Type} :
    ∀ (l : List (String × α)) (n : String),
      dedupByKeyFirst (l.filter fun q => !(q.1 == n))
        = (dedupByKeyFirst l).filter fun q => !(q.1 == n)
  | [], n => by simp [dedupByKeyFirst]
  | e :: rest, n => by
      rw [dedupByKeyFirst]
      cases hen : e.1 == n with
      | true =>
          have hn : n = e.1 := by
            have := beq_iff_eq.mp hen
            exact this.symm
          subst hn
          rw [List.filter_cons]
          simp only [hen, Bool.not_true, Bool.false_eq_true, if_false, List.filter_cons,
            Bool.not_eq_true']
          symm
          apply List.filter_eq_self.mpr
          intro q hq
          exact (List.mem_filter.mp (dedupFirst_subset _ _ hq)).2
      | false =>
          rw [List.filter_cons]
          rw [if_pos (by simp [hen])]
          rw [dedupByKeyFirst, List.filter_cons, if_pos (by simp [hen])]
          congr 1
          rw [filter_swap]
          exact dedupFirst_filter (rest.filter fun q => !(q.1 == e.1)) n
termination_by l _ => l.length
decreasing_by
  simp only [List.length_cons]
  exact Nat.lt_succ_of_le (List.length_filter_le _ _)

theorem dedupFirst_keys_nodup {α : Type} :
    ∀ (l : List (String × α)), ((dedupByKeyFirst l).map Prod.fst).Nodup
  | [] => by simp [dedupByKeyFirst]
  | e :: rest => by
      rw [dedupByKeyFirst]
      simp only [List.map_cons, List.nodup_cons]
      refine ⟨?_, dedupFirst_keys_nodup _⟩
      intro hmem
      rcases List.mem_map.mp hmem with ⟨q, hq, hq1⟩
      have hmf := List.mem_filter.mp (dedupFirst_subset _ _ hq)
      simp [hq1] at hmf
termination_by l => l.length
decreasing_by
  simp only [List.length_cons]
  exact Nat.lt_succ_of_le (List.length_filter_le _ _)

theorem find_first_of_mem_dedupFirst {α : Type} :
    ∀ (l : List (String × α)) (x : String × α), x ∈ dedupByKeyFirst l →
      l.find? (fun q => q.1 == x.1) = some x
  | [], x, hx => by simp [dedupByKeyFirst] at hx
  | e :: rest, x, hx => by
      rw [dedupByKeyFirst] at hx
      rcases List.mem_cons.mp hx with rfl | h
      · simp [List.find?_cons]
      · have hmf := List.mem_filter.mp (dedupFirst_subset _ _ h)
        have hne : (x.1 == e.1) = false := by
          have := hmf.2
          simpa using this
        have hne2 : (e.1 == x.1) = false := by
          rw [beq_eq_false_iff_ne] at hne ⊢
          exact fun hh => hne hh.symm
        rw [List.find?_cons_of_neg _ (by simp [hne2])]
        have hrec := find_first_of_mem_dedupFirst (rest.filter fun q => !(q.1 == e.1)) x h
        rw [find?_filter_comm] at hrec
        · exact hrec
        · intro q hq
          have hq1 : q.1 = x.1 := by simpa using hq
          rw [hq1]
          simpa using hne
termination_by l _ => l.length
decreasing_by
  simp only [List.length_cons]
  exact Nat.lt_succ_of_le (List.length_filter_le _ _)

theorem find_mem_dedupFirst {α : Type} :
    ∀ (l : List (String × α)) (n : String) (x : String × α),
      l.find? (fun q => q.1 == n) = some x → x ∈ dedupByKeyFirst l
  | [], n, x, hx => by simp at hx
  | e :: rest, n, x, hx => by
      rw [dedupByKeyFirst]
      cases hen : e.1 == n with
      | true =>
          rw [List.find?_cons_of_pos _ (by simp [hen])] at hx
          cases hx
          exact List.mem_cons_self _ _
      | false =>
          rw [List.find?_cons_of_neg _ (by simp [hen])] at hx
          have hfind : (rest.filter fun q => !(q.1 == e.1)).find? (fun q => q.1 == n)
              = some x := by
            rw [find?_filter_comm]
            · exact hx
            · intro q hq
              have hq1 : q.1 = n := by simpa using hq
              have hne : ¬(e.1 = n) := by simpa using hen
              rw [hq1]
              simp [beq_eq_false_iff_ne]
              exact fun hh => hne hh.symm
          exact List.mem_cons_of_mem _ (find_mem_dedupFirst _ n x hfind)
termination_by l _ _ => l.length
decreasing_by
  simp only [List.length_cons]
  exact Nat.lt_succ_of_le (List.length_filter_le _ _)

theorem dedupLast_map {α β : Type} (g : String × α → β) (l : List (String × α)) :
    dedupByKeyLast (l.map fun e => (e.1, g e)) = (dedupByKeyLast l).map fun e => (e.1, g e) := by
  induction l with
  | nil => rfl
  | cons e rest ih =>
      rw [List.map_cons, dedupByKeyLast]
      conv_rhs => rw [dedupByKeyLast]
      have hany : ((rest.map fun e => (e.1, g e)).any fun q => q.1 == (e.1, g e).1)
          = rest.any fun q => q.1 == e.1 := by
        rw [any_map_poly]
      rw [hany]
      split
      · exact ih
      · rw [List.map_cons, ih]

theorem dedupFirst_map {α β : Type} (g : String × α → β) :
    ∀ (l : List (String × α)),
      dedupByKeyFirst (l.map fun e => (e.1, g e))
        = (dedupByKeyFirst l).map fun e => (e.1, g e)
  | [] => by simp [dedupByKeyFirst]
  | e :: rest => by
      rw [List.map_cons, dedupByKeyFirst]
      conv_rhs => rw [dedupByKeyFirst]
      rw [List.map_cons]
      congr 1
      rw [List.filter_map]
      have hpred : ((fun q : String × β => !(q.1 == (e.1, g e).1)) ∘ fun e2 => (e2.1, g e2))
          = fun q : String × α => !(q.1 == e.1) := by
        funext q
        rfl
      rw [hpred]
      exact dedupFirst_map g (rest.filter fun q => !(q.1 == e.1))
termination_by l => l.length
decreasing_by
  simp only [List.length_cons]
  exact Nat.lt_succ_of_le (List.length_filter_le _ _)

theorem checkWith_none (l : Bool) (t : DataType) : checkWith l t .none = true := by
  cases t <;> simp [checkWith]

theorem covers_none (t : DataType) : covers t .none = true := by
  cases t <;> simp [covers]

theorem conflict_ok (v : PyValue) :
    checkWith true .conflictType v = true ∧ covers .conflictType v = true := by
  cases v <;> simp [checkWith, covers]

theorem checkWith_null_false {v : PyValue} (hv : v ≠ .none) :
    checkWith true .nullType v = false := by
  cases v <;> simp [checkWith] at hv ⊢

theorem checkWith_binary_false {v : PyValue} (hv : v ≠ .none) :
    checkWith true .binaryType v = false := by
  cases v <;> simp [checkWith] at hv ⊢

theorem checkWith_timestamp_false {tz : Option String} {v : PyValue} (hv : v ≠ .none) :
    checkWith true (.timestampType tz) v = false := by
  cases v <;> simp [checkWith] at hv ⊢

theorem checkL_bool_inv {v : PyValue} (h : checkWith true .booleanType v = true)
    (hv : v ≠ .none) : ∃ c, v = .bool c := by
  cases v <;> first
    | exact absurd rfl hv
    | exact ⟨_, rfl⟩
    | simp [checkWith] at h

theorem checkL_int_inv {w : Nat} {v : PyValue} (h : checkWith true (.integerType w) v = true)
    (hv : v ≠ .none) : ∃ n, v = .int n := by
  cases v <;> first
    | exact absurd rfl hv
    | exact ⟨_, rfl⟩
    | simp [checkWith] at h

theorem checkL_float_inv {w : Nat} {v : PyValue} (h : checkWith true (.floatType w) v = true)
    (hv : v ≠ .none) : (∃ n, v = .int n) ∨ ∃ x, v = .float x := by
  cases v <;> first
    | exact absurd rfl hv
    | exact Or.inl ⟨_, rfl⟩
    | exact Or.inr ⟨_, rfl⟩
    | simp [checkWith] at h

theorem checkL_string_inv {v : PyValue} (h : checkWith true .stringType v = true)
    (hv : v ≠ .none) : ∃ s, v = .str s := by
  cases v <;> first
    | exact absurd rfl hv
    | exact ⟨_, rfl⟩
    | simp [checkWith] at h

theorem checkL_array_inv {e : DataType} {v : PyValue}
    (h : checkWith true (.arrayType e) v = true) (hv : v ≠ .none) : ∃ xs, v = .vlist xs := by
  cases v <;> first
    | exact absurd rfl hv
    | exact ⟨_, rfl⟩
    | simp [checkWith] at h

theorem checkL_struct_rec {l : Bool} {fs : List Fld} {v : PyValue}
    (h : checkWith l (.structType fs) v = true) (hv : v ≠ .none) : isRecordValue v = true := by
  cases v <;> first
    | exact absurd rfl hv
    | rfl
    | simp [checkWith, isRecordValue] at h

theorem checkWith_array {l : Bool} {e : DataType} {xs : List PyValue} :
    checkWith l (.arrayType e) (.vlist xs) = checkElems l e xs := by
  simp [checkWith]

theorem checkWith_struct {l : Bool} {fs : List Fld} {v : PyValue}
    (hv : isRecordValue v = true) :
    checkWith l (.structType fs) v = checkFields l fs 0 v := by
  cases v <;> simp [checkWith, isRecordValue] at hv ⊢

theorem checkElems_iff {l : Bool} {e : DataType} {xs : List PyValue} :
    checkElems l e xs = true ↔ ∀ x ∈ xs, checkWith l e x = true := by
  induction xs with
  | nil => simp [checkElems]
  | cons x rest ih => simp [checkElems, ih]

theorem coversElems_iff {e : DataType} {xs : List PyValue} :
    coversElems e xs = true ↔ ∀ x ∈ xs, covers e x = true := by
  induction xs with
  | nil => simp [coversElems]
  | cons x rest ih => simp [coversElems, ih]

theorem checkFields_name_iff (lenient : Bool) (v : PyValue)
    (hpos : ∀ j n, valueFieldAt v j n = valueFieldAt v 0 n) :
    ∀ (fs : List Fld) (j : Nat),
      checkFields lenient fs j v = true
        ↔ ∀ f ∈ fs, checkWith lenient f.2.1 (valueFieldAt v 0 f.1) = true := by
  intro fs
  induction fs with
  | nil => intro j; simp [checkFields]
  | cons f rest ih =>
      intro j
      obtain ⟨n, t, b⟩ := f
      rw [checkFields, Bool.and_eq_true, ih (j + 1), hpos j n, List.forall_mem_cons]

theorem coversLast_iff (fs : List Fld) (es : List (String × PyValue)) :
    coversLast fs es = true
      ↔ ∀ en ∈ dedupByKeyLast es,
          ∃ f, findNameF fs en.1 = some f ∧ covers f.2.1 en.2 = true := by
  induction es with
  | nil => simp [coversLast, dedupByKeyLast]
  | cons e rest ih =>
      obtain ⟨n, v⟩ := e
      rw [coversLast, Bool.and_eq_true, ih, dedupByKeyLast]
      cases hany : rest.any fun q => q.1 == (n, v).1 with
      | true =>
          have hany2 : (rest.any fun q => q.1 == n) = true := hany
          simp only [hany2, Bool.true_or, true_and, hany]
          simp
      | false =>
          have hany2 : (rest.any fun q => q.1 == n) = false := hany
          simp only [hany2, Bool.false_or, hany, Bool.false_eq_true, if_false,
            List.forall_mem_cons]
          constructor
          · rintro ⟨hM, hrest⟩
            refine ⟨?_, hrest⟩
            revert hM
            cases hf : fs.find? fun f => f.1 == n with
            | none => intro hM; exact absurd hM (by simp)
            | some f => intro hM; exact ⟨f, hf, hM⟩
          · rintro ⟨⟨f, hf, hc⟩, hrest⟩
            refine ⟨?_, hrest⟩
            rw [show (fs.find? fun g => g.1 == n) = findNameF fs n from rfl, hf]
            exact hc

theorem coversFirst_iff (fs : List Fld) :
    ∀ (ns : List String) (vs : List PyValue) (seen : List String),
      coversFirst fs seen ns vs = true
        ↔ ∀ en ∈ dedupByKeyFirst (ns.zip vs), (seen.any fun s => s == en.1) = false →
            ∃ f, findNameF fs en.1 = some f ∧ covers f.2.1 en.2 = true := by
  intro ns
  induction ns with
  | nil =>
      intro vs seen
      cases vs <;> simp [coversFirst, dedupByKeyFirst]
  | cons n ns ih =>
      intro vs seen
      cases vs with
      | nil => simp [coversFirst, dedupByKeyFirst]
      | cons v vs =>
          rw [coversFirst, Bool.and_eq_true, ih vs (n :: seen)]
          rw [List.zip_cons_cons, dedupByKeyFirst, dedupFirst_filter, List.forall_mem_cons]
          constructor
          · rintro ⟨hM, htail⟩
            constructor
            · intro hs
              have hs2 : (seen.any fun s => s == n) = false := hs
              rw [hs2, Bool.false_or] at hM
              revert hM
              cases hf : fs.find? fun f => f.1 == n with
              | none => intro hM; exact absurd hM (by simp)
              | some f => intro hM; exact ⟨f, hf, hM⟩
            · intro en hen hs
              have hmem := List.mem_filter.mp hen
              have hne : (en.1 == n) = false := by simpa using hmem.2
              apply htail en hmem.1
              rw [List.any_cons]
              have hne2 : (n == en.1) = false := by
                rw [beq_eq_false_iff_ne] at hne ⊢
                exact fun hh => hne hh.symm
              rw [hne2, Bool.false_or]
              exact hs
          · rintro ⟨hhead, htail⟩
            constructor
            · cases hs : seen.any fun s => s == n with
              | true => rw [Bool.true_or]
              | false =>
                  rw [Bool.false_or]
                  obtain ⟨f, hf, hc⟩ := hhead hs
                  rw [show (fs.find? fun g => g.1 == n) = findNameF fs n from rfl, hf]
                  exact hc
            · intro en hen hs2
              rw [List.any_cons] at hs2
              have hs3 : (n == en.1) = false ∧ (seen.any fun s => s == en.1) = false := by
                constructor
                · cases h1 : n == en.1
                  · rfl
                  · rw [h1, Bool.true_or] at hs2; exact absurd hs2 (by simp)
                · cases h2 : seen.any fun s => s == en.1
                  · rfl
                  · rw [h2, Bool.or_true] at hs2; exact absurd hs2 (by simp)
              apply htail en
              · apply List.mem_filter.mpr
                refine ⟨hen, ?_⟩
                have : (en.1 == n) = false := by
                  have h := hs3.1
                  rw [beq_eq_false_iff_ne] at h ⊢
                  exact fun hh => h hh.symm
                simp [this]
              · exact hs3.2

theorem lookV_dict (es : List (String × PyValue)) (n : String) :
    valueFieldAt (.vdict es) 0 n = .none ∨
      ∃ en, en ∈ dedupByKeyLast es ∧ en.1 = n ∧ valueFieldAt (.vdict es) 0 n = en.2 := by
  cases hf : (dedupByKeyLast es).find? fun e => e.1 == n with
  | none => exact Or.inl (by simp [valueFieldAt, hf])
  | some en =>
      exact Or.inr ⟨en, List.mem_of_find?_eq_some hf, by simpa using List.find?_some hf,
        by simp [valueFieldAt, hf]⟩

theorem lookV_dict_mem {es : List (String × PyValue)} {en : String × PyValue}
    (hen : en ∈ dedupByKeyLast es) : valueFieldAt (.vdict es) 0 en.1 = en.2 := by
  simp [valueFieldAt, find_key_of_mem_nodupKeys (dedupLast_keys_nodup es) hen]

theorem lookV_row (ns : List String) (vs : List PyValue) (n : String) :
    valueFieldAt (.vrow ns vs) 0 n = .none ∨
      ∃ en, en ∈ dedupByKeyFirst (ns.zip vs) ∧ en.1 = n ∧
        valueFieldAt (.vrow ns vs) 0 n = en.2 := by
  cases hf : (ns.zip vs).find? fun e => e.1 == n with
  | none => exact Or.inl (by simp [valueFieldAt, hf])
  | some en =>
      exact Or.inr ⟨en, find_mem_dedupFirst _ n en hf, by simpa using List.find?_some hf,
        by simp [valueFieldAt, hf]⟩

theorem lookV_row_mem {ns : List String} {vs : List PyValue} {en : String × PyValue}
    (hen : en ∈ dedupByKeyFirst (ns.zip vs)) : valueFieldAt (.vrow ns vs) 0 en.1 = en.2 := by
  simp [valueFieldAt, find_first_of_mem_dedupFirst _ en hen]

theorem sizeOf_entry_dict {es : List (String × PyValue)} {en : String × PyValue}
    (hen : en ∈ dedupByKeyLast es) : sizeOf en.2 < sizeOf (PyValue.vdict es) := by
  have h1 := List.sizeOf_lt_of_mem (dedupLast_subset hen)
  obtain ⟨n, v⟩ := en
  simp_arith at h1 ⊢
  omega

theorem sizeOf_entry_row {ns : List String} {vs : List PyValue} {en : String × PyValue}
    (hen : en ∈ dedupByKeyFirst (ns.zip vs)) : sizeOf en.2 < sizeOf (PyValue.vrow ns vs) := by
  have h1 := List.sizeOf_lt_of_mem (List.of_mem_zip (dedupFirst_subset _ _ hen)).2
  simp_arith
  omega

theorem wfFields_iff {fs : List Fld} : wfFields fs = true ↔ ∀ f ∈ fs, wfNames f.2.1 = true := by
  induction fs with
  | nil => simp [wfFields]
  | cons f rest ih =>
      obtain ⟨n, t, b⟩ := f
      simp [wfFields, ih]

theorem wfFields_mem {fs : List Fld} {f : Fld} (h : wfFields fs = true) (hf : f ∈ fs) :
    wfNames f.2.1 = true := wfFields_iff.mp h f hf

theorem wfNames_struct {fs : List Fld} :
    wfNames (.structType fs) = true
      ↔ nodupNames (fs.map fun f => f.1) = true ∧ wfFields fs = true := by
  simp [wfNames]

theorem hasNameF_mem {l : List Fld} {n : String} :
    hasNameF l n = true ↔ n ∈ l.map fun f => f.1 := by
  rw [hasNameF, List.any_eq_true]
  simp only [List.mem_map, beq_iff_eq]

theorem struct_merge_absorb
    (v : PyValue) (E : List (String × PyValue))
    (F1 : ∀ n, valueFieldAt v 0 n = .none ∨
        ∃ en, en ∈ E ∧ en.1 = n ∧ valueFieldAt v 0 n = en.2)
    (F2 : ∀ en ∈ E, valueFieldAt v 0 en.1 = en.2)
    (F3 : ∀ fs : List Fld, covers (.structType fs) v = true
        ↔ ∀ en ∈ E, ∃ f, findNameF fs en.1 = some f ∧ covers f.2.1 en.2 = true)
    (F4 : ∀ (lenient : Bool) (fs : List Fld), checkWith lenient (.structType fs) v = true
        ↔ ∀ f ∈ fs, checkWith lenient f.2.1 (valueFieldAt v 0 f.1) = true)
    (IH : ∀ en ∈ E, ∀ a b : DataType, wfNames a = true → wfNames b = true →
        ((checkWith true a en.2 = true ∧ covers a en.2 = true) ∨
         (checkWith true b en.2 = true ∧ covers b en.2 = true)) →
        checkWith true (merge a b) en.2 = true ∧ covers (merge a b) en.2 = true)
    (f1 f2 : List Fld)
    (h1 : wfNames (.structType f1) = true) (h2 : wfNames (.structType f2) = true)
    (main : (checkWith true (.structType f1) v = true ∧ covers (.structType f1) v = true) ∨
        (checkWith true (.structType f2) v = true ∧ covers (.structType f2) v = true)) :
    checkWith true (.structType (mergeFields f1 f2)) v = true ∧
      covers (.structType (mergeFields f1 f2)) v = true := by
  obtain ⟨hn1, hwf1⟩ := wfNames_struct.mp h1
  obtain ⟨hn2, hwf2⟩ := wfNames_struct.mp h2
  have hnd1 : (f1.map Prod.fst).Nodup := nodupNames_iff.mp hn1
  rcases main with ⟨hcA, hvA⟩ | ⟨hcB, hvB⟩
  · have hchkA := (F4 true f1).mp hcA
    have perA := (F3 f1).mp hvA
    constructor
    · apply (F4 true (mergeFields f1 f2)).mpr
      intro g hg
      rw [mergeFields] at hg
      rcases List.mem_append.mp hg with hg1 | hg2
      · rcases List.mem_map.mp hg1 with ⟨f, hf, rfl⟩
        rw [combineFld_fst]
        cases hf2 : findNameF f2 f.1 with
        | some g2 =>
            rw [combineFld_of_some hf2]
            rcases F1 f.1 with hnone | ⟨en, henE, hkey, hval⟩
            · rw [hnone]; exact checkWith_none _ _
            · rw [hval]
              obtain ⟨f', hf', hcov'⟩ := perA en henE
              have hfind1 : findNameF f1 en.1 = some f := by
                rw [hkey]
                exact find_key_of_mem_nodupKeys hnd1 hf
              rw [hfind1] at hf'
              cases hf'
              have hchk1 : checkWith true f.2.1 en.2 = true := by
                have h := hchkA f hf
                rw [hval] at h
                exact h
              exact (IH en henE f.2.1 g2.2.1 (wfFields_mem hwf1 hf)
                (wfFields_mem hwf2 (List.mem_of_find?_eq_some hf2))
                (Or.inl ⟨hchk1, hcov'⟩)).1
        | none =>
            rw [combineFld_of_none hf2]
            exact hchkA f hf
      · rw [extrasFld_eq] at hg2
        rcases List.mem_map.mp hg2 with ⟨g2, hg2f, rfl⟩
        have hmf := List.mem_filter.mp hg2f
        have hnoname : hasNameF f1 g2.1 = false := by simpa using hmf.2
        rw [tripFld_fst]
        rcases F1 g2.1 with hnone | ⟨en, henE, hkey, hval⟩
        · rw [hnone]; exact checkWith_none _ _
        · exfalso
          obtain ⟨f', hf', _⟩ := perA en henE
          rw [hkey] at hf'
          have hsome : hasNameF f1 g2.1 = true := by
            rw [← findNameF_isSome, hf']
            rfl
          rw [hnoname] at hsome
          exact Bool.noConfusion hsome
    · apply (F3 (mergeFields f1 f2)).mpr
      intro en henE
      obtain ⟨f, hf1, hcov⟩ := perA en henE
      have hfmem : f ∈ f1 := List.mem_of_find?_eq_some hf1
      have hfkey : f.1 = en.1 := by simpa using List.find?_some hf1
      have hfindM : findNameF (mergeFields f1 f2) en.1 = some (combineFld f2 f) := by
        rw [mergeFields, findNameF_append,
          findNameF_map f1 (combineFld f2) (combineFld_fst f2) en.1, hf1]
        rfl
      refine ⟨combineFld f2 f, hfindM, ?_⟩
      cases hf2 : findNameF f2 f.1 with
      | some g2 =>
          rw [combineFld_of_some hf2]
          have hchk1 : checkWith true f.2.1 en.2 = true := by
            have h := hchkA f hfmem
            rw [hfkey, F2 en henE] at h
            exact h
          exact (IH en henE f.2.1 g2.2.1 (wfFields_mem hwf1 hfmem)
            (wfFields_mem hwf2 (List.mem_of_find?_eq_some hf2)) (Or.inl ⟨hchk1, hcov⟩)).2
      | none =>
          rw [combineFld_of_none hf2]
          exact hcov
  · have hchkB := (F4 true f2).mp hcB
    have perB := (F3 f2).mp hvB
    constructor
    · apply (F4 true (mergeFields f1 f2)).mpr
      intro g hg
      rw [mergeFields] at hg
      rcases List.mem_append.mp hg with hg1 | hg2
      · rcases List.mem_map.mp hg1 with ⟨f, hf, rfl⟩
        rw [combineFld_fst]
        cases hf2 : findNameF f2 f.1 with
        | some g2 =>
            rw [combineFld_of_some hf2]
            rcases F1 f.1 with hnone | ⟨en, henE, hkey, hval⟩
            · rw [hnone]; exact checkWith_none _ _
            · rw [hval]
              have hg2mem : g2 ∈ f2 := List.mem_of_find?_eq_some hf2
              have hg2key : g2.1 = f.1 := by simpa using List.find?_some hf2
              have hchk2 : checkWith true g2.2.1 en.2 = true := by
                have h := hchkB g2 hg2mem
                rw [hg2key, ← hkey, F2 en henE] at h
                exact h
              have hcov2 : covers g2.2.1 en.2 = true := by
                obtain ⟨g', hg', hc⟩ := perB en henE
                have hrw : findNameF f2 en.1 = some g2 := by
                  rw [← hkey] at hf2
                  exact hf2
                rw [hrw] at hg'
                cases hg'
                exact hc
              exact (IH en henE f.2.1 g2.2.1 (wfFields_mem hwf1 hf)
                (wfFields_mem hwf2 hg2mem) (Or.inr ⟨hchk2, hcov2⟩)).1
        | none =>
            rw [combineFld_of_none hf2]
            rcases F1 f.1 with hnone | ⟨en, henE, hkey, hval⟩
            · rw [hnone]; exact checkWith_none _ _
            · exfalso
              obtain ⟨g', hg', _⟩ := perB en henE
              rw [hkey, hf2] at hg'
              exact Option.noConfusion hg'
      · rw [extrasFld_eq] at hg2
        rcases List.mem_map.mp hg2 with ⟨g2, hg2f, rfl⟩
        have hmf := List.mem_filter.mp hg2f
        rw [tripFld_fst]
        exact hchkB g2 hmf.1
    · apply (F3 (mergeFields f1 f2)).mpr
      intro en henE
      obtain ⟨g2, hg2, hcov2⟩ := perB en henE
      cases hH : hasNameF f1 en.1 with
      | true =>
          have hsome : (findNameF f1 en.1).isSome = true := by rw [findNameF_isSome, hH]
          obtain ⟨f, hf1⟩ := Option.isSome_iff_exists.mp hsome
          have hfmem := List.mem_of_find?_eq_some hf1
          have hfkey : f.1 = en.1 := by simpa using List.find?_some hf1
          have hfindM : findNameF (mergeFields f1 f2) en.1 = some (combineFld f2 f) := by
            rw [mergeFields, findNameF_append,
              findNameF_map f1 (combineFld f2) (combineFld_fst f2) en.1, hf1]
            rfl
          refine ⟨combineFld f2 f, hfindM, ?_⟩
          have hf2f : findNameF f2 f.1 = some g2 := by
            rw [hfkey]
            exact hg2
          rw [combineFld_of_some hf2f]
          have hchk2 : checkWith true g2.2.1 en.2 = true := by
            have h := hchkB g2 (List.mem_of_find?_eq_some hg2)
            have hg2key : g2.1 = en.1 := by simpa using List.find?_some hg2
            rw [hg2key, F2 en henE] at h
            exact h
          exact (IH en henE f.2.1 g2.2.1 (wfFields_mem hwf1 hfmem)
            (wfFields_mem hwf2 (List.mem_of_find?_eq_some hg2)) (Or.inr ⟨hchk2, hcov2⟩)).2
      | false =>
          have hf1none : findNameF f1 en.1 = none := findNameF_eq_none hH
          have hfindM : findNameF (mergeFields f1 f2) en.1 = some (tripFld g2) := by
            rw [mergeFields, findNameF_append,
              findNameF_map f1 (combineFld f2) (combineFld_fst f2) en.1, hf1none]
            rw [show (Option.map (combineFld f2) none).or
                (findNameF (extrasFld f1 f2) en.1) = findNameF (extrasFld f1 f2) en.1 from rfl]
            rw [extrasFld_eq, findNameF_map _ tripFld tripFld_fst en.1,
              findNameF_filter f2 _ en.1 (fun g hg => by rw [hg, hH]; rfl), hg2]
            rfl
          exact ⟨tripFld g2, hfindM, hcov2⟩

theorem covers_dict_iff (fs : List Fld) (es : List (String × PyValue)) :
    covers (.structType fs) (.vdict es) = true
      ↔ ∀ en ∈ dedupByKeyLast es,
          ∃ f, findNameF fs en.1 = some f ∧ covers f.2.1 en.2 = true := by
  rw [show covers (.structType fs) (.vdict es) = coversLast fs es from by simp [covers]]
  exact coversLast_iff fs es

theorem check_dict_iff (l : Bool) (fs : List Fld) (es : List (String × PyValue)) :
    checkWith l (.structType fs) (.vdict es) = true
      ↔ ∀ f ∈ fs, checkWith l f.2.1 (valueFieldAt (.vdict es) 0 f.1) = true := by
  rw [checkWith_struct (by rfl)]
  exact checkFields_name_iff l (.vdict es) (fun j n => rfl) fs 0

theorem covers_row_iff (fs : List Fld) (ns : List String) (vs : List PyValue) :
    covers (.structType fs) (.vrow ns vs) = true
      ↔ ∀ en ∈ dedupByKeyFirst (ns.zip vs),
          ∃ f, findNameF fs en.1 = some f ∧ covers f.2.1 en.2 = true := by
  rw [show covers (.structType fs) (.vrow ns vs) = coversFirst fs [] ns vs from by simp [covers]]
  rw [coversFirst_iff fs ns vs []]
  constructor
  · intro h en hen
    exact h en hen rfl
  · intro h en hen _
    exact h en hen

theorem check_row_iff (l : Bool) (fs : List Fld) (ns : List String) (vs : List PyValue) :
    checkWith l (.structType fs) (.vrow ns vs) = true
      ↔ ∀ f ∈ fs, checkWith l f.2.1 (valueFieldAt (.vrow ns vs) 0 f.1) = true := by
  rw [checkWith_struct (by rfl)]
  exact checkFields_name_iff l (.vrow ns vs) (fun j n => rfl) fs 0

theorem merge_other_conflict_ok (v : PyValue) {a b : DataType} (h : merge a b = .conflictType) :
    checkWith true (merge a b) v = true ∧ covers (merge a b) v = true := by
  rw [h]
  exact conflict_ok v

theorem absorb_main : ∀ (k : Nat) (v : PyValue), sizeOf v ≤ k → ∀ a b : DataType,
    wfNames a = true → wfNames b = true →
    ((checkWith true a v = true ∧ covers a v = true) ∨
     (checkWith true b v = true ∧ covers b v = true)) →
    checkWith true (merge a b) v = true ∧ covers (merge a b) v = true := by
  intro k
  induction k with
  | zero =>
      intro v hv
      exfalso
      cases v <;> simp_arith at hv
  | succ k ih =>
      intro v hv a b hwa hwb hmain
      by_cases hv0 : v = PyValue.none
      · subst hv0
        exact ⟨checkWith_none _ _, covers_none _⟩
      rcases hmain with ⟨h1, h2⟩ | ⟨h1, h2⟩
      · cases a with
        | nullType => rw [checkWith_null_false hv0] at h1; exact Bool.noConfusion h1
        | conflictType => rw [merge_conflict_left]; exact conflict_ok v
        | binaryType => rw [checkWith_binary_false hv0] at h1; exact Bool.noConfusion h1
        | timestampType tz => rw [checkWith_timestamp_false hv0] at h1; exact Bool.noConfusion h1
        | booleanType =>
            obtain ⟨c, rfl⟩ := checkL_bool_inv h1 hv0
            cases b <;> simp [merge, checkWith, covers]
        | integerType w1 =>
            obtain ⟨n, rfl⟩ := checkL_int_inv h1 hv0
            cases b <;> simp [merge, checkWith, covers]
        | floatType w1 =>
            rcases checkL_float_inv h1 hv0 with ⟨n, rfl⟩ | ⟨x, rfl⟩ <;>
              cases b <;> simp [merge, checkWith, covers]
        | stringType =>
            obtain ⟨s, rfl⟩ := checkL_string_inv h1 hv0
            cases b <;> simp [merge, checkWith, covers]
        | arrayType e1 =>
            obtain ⟨xs, rfl⟩ := checkL_array_inv h1 hv0
            have h1e : checkElems true e1 xs = true := by rw [← checkWith_array]; exact h1
            have h2e : coversElems e1 xs = true := by simpa [covers] using h2
            have hwe1 : wfNames e1 = true := by simpa [wfNames] using hwa
            cases b with
            | nullType => rw [merge_null_right]; exact ⟨h1, h2⟩
            | conflictType => rw [merge_conflict_right]; exact conflict_ok _
            | arrayType e2 =>
                have hwe2 : wfNames e2 = true := by simpa [wfNames] using hwb
                rw [show merge (.arrayType e1) (.arrayType e2) = .arrayType (merge e1 e2) from by
                  simp [merge]]
                have habs : ∀ x ∈ xs,
                    checkWith true (merge e1 e2) x = true ∧ covers (merge e1 e2) x = true := by
                  intro x hx
                  have hxk : sizeOf x ≤ k := by
                    have hm := List.sizeOf_lt_of_mem hx
                    simp_arith at hv
                    omega
                  exact ih x hxk e1 e2 hwe1 hwe2
                    (Or.inl ⟨checkElems_iff.mp h1e x hx, coversElems_iff.mp h2e x hx⟩)
                constructor
                · rw [checkWith_array]
                  exact checkElems_iff.mpr fun x hx => (habs x hx).1
                · have hce : coversElems (merge e1 e2) xs = true :=
                    coversElems_iff.mpr fun x hx => (habs x hx).2
                  simpa [covers] using hce
            | _ => exact merge_other_conflict_ok _ (by simp [merge])
        | structType f1 =>
            cases v with
            | none => exact absurd rfl hv0
            | vlist xs => exact absurd h2 (by simp [covers])
            | vdict es =>
                cases b with
                | nullType => rw [merge_null_right]; exact ⟨h1, h2⟩
                | conflictType => rw [merge_conflict_right]; exact conflict_ok _
                | structType f2 =>
                    rw [merge_struct]
                    refine struct_merge_absorb (.vdict es) (dedupByKeyLast es)
                      (lookV_dict es) (fun en hen => lookV_dict_mem hen)
                      (fun fs => covers_dict_iff fs es)
                      (fun l fs => check_dict_iff l fs es)
                      ?_ f1 f2 hwa hwb (Or.inl ⟨h1, h2⟩)
                    intro en hen a2 b2 hw1 hw2 hm
                    have hk : sizeOf en.2 ≤ k := by
                      have := sizeOf_entry_dict hen
                      omega
                    exact ih en.2 hk a2 b2 hw1 hw2 hm
                | _ => exact merge_other_conflict_ok _ (by simp [merge])
            | vrow ns vs =>
                cases b with
                | nullType => rw [merge_null_right]; exact ⟨h1, h2⟩
                | conflictType => rw [merge_conflict_right]; exact conflict_ok _
                | structType f2 =>
                    rw [merge_struct]
                    refine struct_merge_absorb (.vrow ns vs) (dedupByKeyFirst (ns.zip vs))
                      (lookV_row ns vs) (fun en hen => lookV_row_mem hen)
                      (fun fs => covers_row_iff fs ns vs)
                      (fun l fs => check_row_iff l fs ns vs)
                      ?_ f1 f2 hwa hwb (Or.inl ⟨h1, h2⟩)
                    intro en hen a2 b2 hw1 hw2 hm
                    have hk : sizeOf en.2 ≤ k := by
                      have := sizeOf_entry_row hen
                      omega
                    exact ih en.2 hk a2 b2 hw1 hw2 hm
                | _ => exact merge_other_conflict_ok _ (by simp [merge])
            | _ => exact absurd (checkL_struct_rec h1 hv0) (by simp [isRecordValue])
      · cases b with
        | nullType => rw [checkWith_null_false hv0] at h1; exact Bool.noConfusion h1
        | conflictType => rw [merge_conflict_right]; exact conflict_ok v
        | binaryType => rw [checkWith_binary_false hv0] at h1; exact Bool.noConfusion h1
        | timestampType tz => rw [checkWith_timestamp_false hv0] at h1; exact Bool.noConfusion h1
        | booleanType =>
            obtain ⟨c, rfl⟩ := checkL_bool_inv h1 hv0
            cases a <;> simp [merge, checkWith, covers]
        | integerType w1 =>
            obtain ⟨n, rfl⟩ := checkL_int_inv h1 hv0
            cases a <;> simp [merge, checkWith, covers]
        | floatType w1 =>
            rcases checkL_float_inv h1 hv0 with ⟨n, rfl⟩ | ⟨x, rfl⟩ <;>
              cases a <;> simp [merge, checkWith, covers]
        | stringType =>
            obtain ⟨s, rfl⟩ := checkL_string_inv h1 hv0
            cases a <;> simp [merge, checkWith, covers]
        | arrayType e2 =>
            obtain ⟨xs, rfl⟩ := checkL_array_inv h1 hv0
            have h1e : checkElems true e2 xs = true := by rw [← checkWith_array]; exact h1
            have h2e : coversElems e2 xs = true := by simpa [covers] using h2
            have hwe2 : wfNames e2 = true := by simpa [wfNames] using hwb
            cases a with
            | nullType => rw [merge_null_left]; exact ⟨h1, h2⟩
            | conflictType => rw [merge_conflict_left]; exact conflict_ok _
            | arrayType e1 =>
                have hwe1 : wfNames e1 = true := by simpa [wfNames] using hwa
                rw [show merge (.arrayType e1) (.arrayType e2) = .arrayType (merge e1 e2) from by
                  simp [merge]]
                have habs : ∀ x ∈ xs,
                    checkWith true (merge e1 e2) x = true ∧ covers (merge e1 e2) x = true := by
                  intro x hx
                  have hxk : sizeOf x ≤ k := by
                    have hm := List.sizeOf_lt_of_mem hx
                    simp_arith at hv
                    omega
                  exact ih x hxk e1 e2 hwe1 hwe2
                    (Or.inr ⟨checkElems_iff.mp h1e x hx, coversElems_iff.mp h2e x hx⟩)
                constructor
                · rw [checkWith_array]
                  exact checkElems_iff.mpr fun x hx => (habs x hx).1
                · have hce : coversElems (merge e1 e2) xs = true :=
                    coversElems_iff.mpr fun x hx => (habs x hx).2
                  simpa [covers] using hce
            | _ => exact merge_other_conflict_ok _ (by simp [merge])
        | structType f2 =>
            cases v with
            | none => exact absurd rfl hv0
            | vlist xs => exact absurd h2 (by simp [covers])
            | vdict es =>
                cases a with
                | nullType => rw [merge_null_left]; exact ⟨h1, h2⟩
                | conflictType => rw [merge_conflict_left]; exact conflict_ok _
                | structType f1 =>
                    rw [merge_struct]
                    refine struct_merge_absorb (.vdict es) (dedupByKeyLast es)
                      (lookV_dict es) (fun en hen => lookV_dict_mem hen)
                      (fun fs => covers_dict_iff fs es)
                      (fun l fs => check_dict_iff l fs es)
                      ?_ f1 f2 hwa hwb (Or.inr ⟨h1, h2⟩)
                    intro en hen a2 b2 hw1 hw2 hm
                    have hk : sizeOf en.2 ≤ k := by
                      have := sizeOf_entry_dict hen
                      omega
                    exact ih en.2 hk a2 b2 hw1 hw2 hm
                | _ => exact merge_other_conflict_ok _ (by simp [merge])
            | vrow ns vs =>
                cases a with
                | nullType => rw [merge_null_left]; exact ⟨h1, h2⟩
                | conflictType => rw [merge_conflict_left]; exact conflict_ok _
                | structType f1 =>
                    rw [merge_struct]
                    refine struct_merge_absorb (.vrow ns vs) (dedupByKeyFirst (ns.zip vs))
                      (lookV_row ns vs) (fun en hen => lookV_row_mem hen)
                      (fun fs => covers_row_iff fs ns vs)
                      (fun l fs => check_row_iff l fs ns vs)
                      ?_ f1 f2 hwa hwb (Or.inr ⟨h1, h2⟩)
                    intro en hen a2 b2 hw1 hw2 hm
                    have hk : sizeOf en.2 ≤ k := by
                      have := sizeOf_entry_row hen
                      omega
                    exact ih en.2 hk a2 b2 hw1 hw2 hm
                | _ => exact merge_other_conflict_ok _ (by simp [merge])
            | _ => exact absurd (checkL_struct_rec h1 hv0) (by simp [isRecordValue])

theorem wf_conflict_of {a b : DataType} (h : merge a b = .conflictType) :
    wfNames (merge a b) = true := by
  rw [h]
  simp [wfNames]

theorem wf_merge : ∀ (k : Nat) (a : DataType), sizeOf a ≤ k → ∀ b : DataType,
    wfNames a = true → wfNames b = true → wfNames (merge a b) = true := by
  intro k
  induction k with
  | zero =>
      intro a ha
      exfalso
      cases a <;> simp_arith at ha
  | succ k ih =>
      intro a ha b hwa hwb
      cases a with
      | nullType => rw [merge_null_left]; exact hwb
      | conflictType => rw [merge_conflict_left]; simp [wfNames]
      | arrayType e1 =>
          cases b with
          | nullType => rw [merge_null_right]; exact hwa
          | arrayType e2 =>
              rw [show merge (.arrayType e1) (.arrayType e2) = .arrayType (merge e1 e2) from by
                simp [merge]]
              have he1 : sizeOf e1 ≤ k := by simp_arith at ha; omega
              have hwa2 : wfNames e1 = true := by simpa [wfNames] using hwa
              have hwb2 : wfNames e2 = true := by simpa [wfNames] using hwb
              simpa [wfNames] using ih e1 he1 e2 hwa2 hwb2
          | _ => exact wf_conflict_of (by simp [merge])
      | structType f1 =>
          cases b with
          | nullType => rw [merge_null_right]; exact hwa
          | conflictType => rw [merge_conflict_right]; simp [wfNames]
          | structType f2 =>
              rw [merge_struct]
              obtain ⟨hn1, hwf1⟩ := wfNames_struct.mp hwa
              obtain ⟨hn2, hwf2⟩ := wfNames_struct.mp hwb
              apply wfNames_struct.mpr
              constructor
              · have hnames : (mergeFields f1 f2).map (fun f : Fld => f.1)
                    = f1.map (fun f : Fld => f.1)
                      ++ (f2.filter fun g => !hasNameF f1 g.1).map (fun f : Fld => f.1) := by
                  rw [mergeFields, List.map_append, extrasFld_eq, List.map_map, List.map_map]
                  congr 1
                  exact List.map_congr_left fun f _ => combineFld_fst f2 f
                rw [hnames, nodupNames_iff, List.nodup_append]
                refine ⟨nodupNames_iff.mp hn1, ?_, ?_⟩
                · have hsub : ((f2.filter fun g => !hasNameF f1 g.1).map
                      (fun f : Fld => f.1)).Sublist (f2.map fun f : Fld => f.1) :=
                    List.Sublist.map _ (List.filter_sublist f2)
                  exact (nodupNames_iff.mp hn2).sublist hsub
                · intro n hm1 hm2
                  rcases List.mem_map.mp hm2 with ⟨g, hgf, rfl⟩
                  have hmf := List.mem_filter.mp hgf
                  have hnof : hasNameF f1 g.1 = false := by simpa using hmf.2
                  rw [← hasNameF_mem, hnof] at hm1
                  exact Bool.noConfusion hm1
              · apply wfFields_iff.mpr
                intro g hg
                rw [mergeFields] at hg
                rcases List.mem_append.mp hg with hg1 | hg2
                · rcases List.mem_map.mp hg1 with ⟨f, hf, rfl⟩
                  have hft : sizeOf f.2.1 ≤ k := by
                    have hlt := List.sizeOf_lt_of_mem hf
                    obtain ⟨n, t, bf⟩ := f
                    simp_arith at ha hlt ⊢
                    omega
                  cases hf2 : findNameF f2 f.1 with
                  | some g2 =>
                      rw [combineFld_of_some hf2]
                      exact ih f.2.1 hft g2.2.1 (wfFields_mem hwf1 hf)
                        (wfFields_mem hwf2 (List.mem_of_find?_eq_some hf2))
                  | none =>
                      rw [combineFld_of_none hf2]
                      exact wfFields_iff.mp hwf1 f hf
                · rw [extrasFld_eq] at hg2
                  rcases List.mem_map.mp hg2 with ⟨g2, hg2f, rfl⟩
                  exact wfFields_iff.mp hwf2 g2 (List.mem_filter.mp hg2f).1
          | _ => exact wf_conflict_of (by simp [merge])
      | _ =>
          cases b <;> first
            | (simp [merge, wfNames]; done)
            | (rw [merge]; split <;> simp [wfNames])

theorem inferEntries_eq (es : List (String × PyValue)) :
    inferEntries es = es.map fun e => (e.1, inferValue e.2, true) := by
  induction es with
  | nil => rw [inferEntries]; rfl
  | cons e rest ih =>
      obtain ⟨n, v⟩ := e
      rw [inferEntries, ih]
      rfl

theorem inferNamed_eq (ns : List String) (vs : List PyValue) :
    inferNamed ns vs = (ns.zip vs).map fun p => (p.1, inferValue p.2, true) := by
  induction ns generalizing vs with
  | nil => cases vs <;> (rw [inferNamed]; rfl)
  | cons n ns ih =>
      cases vs with
      | nil => rw [inferNamed]; rfl
      | cons v vs =>
          rw [inferNamed, ih]
          rfl

theorem sortByKey_perm {α : Type} (l : List (String × α)) : (sortByKey l).Perm l :=
  List.perm_insertionSort _ l

theorem inferValue_dict_eq (es : List (String × PyValue)) :
    inferValue (.vdict es)
      = .structType (sortByKey ((dedupByKeyLast es).map fun e =>
          (e.1, inferValue e.2, true))) := by
  rw [inferValue, inferEntries_eq]
  rw [show dedupByKeyLast (es.map fun e => (e.1, inferValue e.2, true))
      = (dedupByKeyLast es).map fun e => (e.1, inferValue e.2, true) from
    dedupLast_map (fun e => (inferValue e.2, true)) es]

theorem inferValue_row_eq (ns : List String) (vs : List PyValue) :
    inferValue (.vrow ns vs)
      = .structType ((dedupByKeyFirst (ns.zip vs)).map fun p =>
          (p.1, inferValue p.2, true)) := by
  rw [inferValue, inferNamed_eq]
  rw [show dedupByKeyFirst ((ns.zip vs).map fun p => (p.1, inferValue p.2, true))
      = (dedupByKeyFirst (ns.zip vs)).map fun p => (p.1, inferValue p.2, true) from
    dedupFirst_map (fun p => (inferValue p.2, true)) (ns.zip vs)]

theorem self_check : ∀ (k : Nat) (v : PyValue), sizeOf v ≤ k →
    wfNames (inferValue v) = true ∧ checkWith true (inferValue v) v = true ∧
      covers (inferValue v) v = true := by
  intro k
  induction k with
  | zero =>
      intro v hv
      exfalso
      cases v <;> simp_arith at hv
  | succ k ih =>
      intro v hv
      cases v with
      | none => exact ⟨by simp [inferValue, wfNames], checkWith_none _ _, covers_none _⟩
      | bool c =>
          exact ⟨by simp [inferValue, wfNames], by simp [inferValue, checkWith],
            by simp [inferValue, covers]⟩
      | int n =>
          exact ⟨by simp [inferValue, wfNames], by simp [inferValue, checkWith],
            by simp [inferValue, covers]⟩
      | float x =>
          exact ⟨by simp [inferValue, wfNames], by simp [inferValue, checkWith],
            by simp [inferValue, covers]⟩
      | str s =>
          exact ⟨by simp [inferValue, wfNames], by simp [inferValue, checkWith],
            by simp [inferValue, covers]⟩
      | vlist xs =>
          rw [show inferValue (.vlist xs) = .arrayType (inferElems xs) from by rw [inferValue]]
          have hsz : ∀ x ∈ xs, sizeOf x ≤ k := by
            intro x hx
            have := List.sizeOf_lt_of_mem hx
            simp_arith at hv
            omega
          have H : ∀ ys : List PyValue, (∀ y ∈ ys, sizeOf y ≤ k) →
              wfNames (inferElems ys) = true ∧
              ∀ y ∈ ys, checkWith true (inferElems ys) y = true ∧
                covers (inferElems ys) y = true := by
            intro ys
            induction ys with
            | nil =>
                intro _
                exact ⟨by rw [inferElems]; simp [wfNames], fun y hy => absurd hy (by simp)⟩
            | cons y rest ihr =>
                intro hb
                have hy := hb y (List.mem_cons_self _ _)
                have hrest := ihr fun z hz => hb z (List.mem_cons_of_mem _ hz)
                obtain ⟨hwy, hcy, hvy⟩ := ih y hy
                rw [show inferElems (y :: rest) = merge (inferValue y) (inferElems rest) from by
                  rw [inferElems]]
                refine ⟨wf_merge (sizeOf (inferValue y)) _ le_rfl _ hwy hrest.1, ?_⟩
                intro z hz
                rcases List.mem_cons.mp hz with rfl | hz2
                · exact absorb_main k z hy _ _ hwy hrest.1 (Or.inl ⟨hcy, hvy⟩)
                · exact absorb_main k z (hb z (List.mem_cons_of_mem _ hz2)) _ _ hwy hrest.1
                    (Or.inr ⟨(hrest.2 z hz2).1, (hrest.2 z hz2).2⟩)
          obtain ⟨hwE, hmE⟩ := H xs hsz
          refine ⟨by simpa [wfNames] using hwE, ?_, ?_⟩
          · rw [checkWith_array]
            exact checkElems_iff.mpr fun x hx => (hmE x hx).1
          · have hce : coversElems (inferElems xs) xs = true :=
              coversElems_iff.mpr fun x hx => (hmE x hx).2
            simpa [covers] using hce
      | vdict es =>
          rw [inferValue_dict_eq]
          have hsz : ∀ en ∈ dedupByKeyLast es, sizeOf en.2 ≤ k := by
            intro en hen
            have := sizeOf_entry_dict hen
            omega
          have hperm : (sortByKey ((dedupByKeyLast es).map fun e =>
              (e.1, inferValue e.2, true))).Perm
              ((dedupByKeyLast es).map fun e => (e.1, inferValue e.2, true)) :=
            sortByKey_perm _
          have hkeysM : (((dedupByKeyLast es).map fun e =>
              (e.1, inferValue e.2, true)).map (fun f : Fld => f.1)).Nodup := by
            rw [List.map_map]
            exact dedupLast_keys_nodup es
          have hkeysL : ((sortByKey ((dedupByKeyLast es).map fun e =>
              (e.1, inferValue e.2, true))).map (fun f : Fld => f.1)).Nodup :=
            (List.Perm.nodup_iff (hperm.map _)).mpr hkeysM
          have hmemL : ∀ en ∈ dedupByKeyLast es,
              (en.1, inferValue en.2, true) ∈ sortByKey ((dedupByKeyLast es).map fun e =>
                (e.1, inferValue e.2, true)) := by
            intro en hen
            exact hperm.mem_iff.mpr (List.mem_map.mpr ⟨en, hen, rfl⟩)
          have hfindL : ∀ en ∈ dedupByKeyLast es,
              findNameF (sortByKey ((dedupByKeyLast es).map fun e =>
                (e.1, inferValue e.2, true))) en.1 = some (en.1, inferValue en.2, true) := by
            intro en hen
            exact find_key_of_mem_nodupKeys hkeysL (hmemL en hen)
          refine ⟨?_, ?_, ?_⟩
          · apply wfNames_struct.mpr
            refine ⟨nodupNames_iff.mpr hkeysL, wfFields_iff.mpr ?_⟩
            intro g hg
            rcases List.mem_map.mp (hperm.mem_iff.mp hg) with ⟨en, hen, rfl⟩
            exact (ih en.2 (hsz en hen)).1
          · apply (check_dict_iff true _ es).mpr
            intro g hg
            rcases List.mem_map.mp (hperm.mem_iff.mp hg) with ⟨en, hen, rfl⟩
            show checkWith true (inferValue en.2) (valueFieldAt (.vdict es) 0 en.1) = true
            rw [lookV_dict_mem hen]
            exact (ih en.2 (hsz en hen)).2.1
          · apply (covers_dict_iff _ es).mpr
            intro en hen
            exact ⟨(en.1, inferValue en.2, true), hfindL en hen, (ih en.2 (hsz en hen)).2.2⟩
      | vrow ns vs =>
          rw [inferValue_row_eq]
          have hsz : ∀ en ∈ dedupByKeyFirst (ns.zip vs), sizeOf en.2 ≤ k := by
            intro en hen
            have := sizeOf_entry_row hen
            omega
          have hkeysL : (((dedupByKeyFirst (ns.zip vs)).map fun p =>
              (p.1, inferValue p.2, true)).map (fun f : Fld => f.1)).Nodup := by
            rw [List.map_map]
            exact dedupFirst_keys_nodup (ns.zip vs)
          have hfindL : ∀ en ∈ dedupByKeyFirst (ns.zip vs),
              findNameF ((dedupByKeyFirst (ns.zip vs)).map fun p =>
                (p.1, inferValue p.2, true)) en.1 = some (en.1, inferValue en.2, true) := by
            intro en hen
            exact find_key_of_mem_nodupKeys hkeysL (List.mem_map.mpr ⟨en, hen, rfl⟩)
          refine ⟨?_, ?_, ?_⟩
          · apply wfNames_struct.mpr
            refine ⟨nodupNames_iff.mpr hkeysL, wfFields_iff.mpr ?_⟩
            intro g hg
            rcases List.mem_map.mp hg with ⟨en, hen, rfl⟩
            exact (ih en.2 (hsz en hen)).1
          · apply (check_row_iff true _ ns vs).mpr
            intro g hg
            rcases List.mem_map.mp hg with ⟨en, hen, rfl⟩
            show checkWith true (inferValue en.2) (valueFieldAt (.vrow ns vs) 0 en.1) = true
            rw [lookV_row_mem hen]
            exact (ih en.2 (hsz en hen)).2.1
          · apply (covers_row_iff _ ns vs).mpr
            intro en hen
            exact ⟨(en.1, inferValue en.2, true), hfindL en hen, (ih en.2 (hsz en hen)).2.2⟩

theorem checkWith_struct_dict (l : Bool) (fs : List Fld) (es : List (String × PyValue)) :
    checkWith l (.structType fs) (.vdict es) = checkFields l fs 0 (.vdict es) :=
  checkWith_struct rfl

theorem checkWith_struct_row (l : Bool) (fs : List Fld) (ns : List String)
    (vs : List PyValue) :
    checkWith l (.structType fs) (.vrow ns vs) = checkFields l fs 0 (.vrow ns vs) :=
  checkWith_struct rfl

theorem checkWith_struct_vlist (l : Bool) (fs : List Fld) (xs : List PyValue) :
    checkWith l (.structType fs) (.vlist xs) = checkFields l fs 0 (.vlist xs) :=
  checkWith_struct rfl

theorem hasNulltypeFields_mem {fs : List Fld} (h : hasNulltypeFields fs = false) :
    ∀ f ∈ fs, hasNulltype f.2.1 = false := by
  induction fs with
  | nil => simp
  | cons f rest ih =>
      obtain ⟨n, t, b⟩ := f
      rw [hasNulltypeFields] at h
      have h2 : hasNulltype t = false ∧ hasNulltypeFields rest = false := by
        cases h1 : hasNulltype t <;> cases h3 : hasNulltypeFields rest <;>
          rw [h1, h3] at h <;> simp_all
      intro f hf
      rcases List.mem_cons.mp hf with rfl | hf2
      · exact h2.1
      · exact ih h2.2 f hf2

theorem checkWith_strict : ∀ (k : Nat) (t : DataType), sizeOf t ≤ k →
    hasNulltype t = false → ∀ v, checkWith true t v = checkWith false t v := by
  intro k
  induction k with
  | zero =>
      intro t ht
      exfalso
      cases t <;> simp_arith at ht
  | succ k ih =>
      intro t ht hn v
      cases t with
      | nullType => simp [hasNulltype] at hn
      | conflictType => simp [hasNulltype] at hn
      | arrayType e =>
          have hne : hasNulltype e = false := by simpa [hasNulltype] using hn
          have hek : sizeOf e ≤ k := by simp_arith at ht; omega
          cases v with
          | none => rw [checkWith_none, checkWith_none]
          | vlist xs =>
              rw [checkWith_array, checkWith_array]
              induction xs with
              | nil => rw [checkElems, checkElems]
              | cons x rest ihx =>
                  rw [checkElems, checkElems, ih e hek hne x, ihx]
          | _ => simp [checkWith]
      | structType fs =>
          have hfields : hasNulltypeFields fs = false := by simpa [hasNulltype] using hn
          have hper := hasNulltypeFields_mem hfields
          have hsz : ∀ f ∈ fs, sizeOf f.2.1 ≤ k := by
            intro f hf
            have hlt := List.sizeOf_lt_of_mem hf
            obtain ⟨n, t2, b⟩ := f
            simp_arith at ht hlt ⊢
            omega
          have hF : ∀ (fs2 : List Fld),
              (∀ f ∈ fs2, sizeOf f.2.1 ≤ k ∧ hasNulltype f.2.1 = false) →
              ∀ (j : Nat) (v2 : PyValue), checkFields true fs2 j v2 = checkFields false fs2 j v2 := by
            intro fs2
            induction fs2 with
            | nil => intro _ j v2; rw [checkFields, checkFields]
            | cons f rest ihf =>
                intro hb j v2
                obtain ⟨n, t2, b⟩ := f
                rw [checkFields, checkFields]
                have h1 := hb (n, t2, b) (List.mem_cons_self _ _)
                rw [ih t2 h1.1 h1.2 (valueFieldAt v2 j n),
                  ihf (fun f hf => hb f (List.mem_cons_of_mem _ hf)) (j + 1) v2]
          cases v with
          | none => rw [checkWith_none, checkWith_none]
          | vdict es =>
              rw [checkWith_struct_dict, checkWith_struct_dict]
              exact hF fs (fun f hf => ⟨hsz f hf, hper f hf⟩) 0 _
          | vrow ns vs =>
              rw [checkWith_struct_row, checkWith_struct_row]
              exact hF fs (fun f hf => ⟨hsz f hf, hper f hf⟩) 0 _
          | vlist xs =>
              rw [checkWith_struct_vlist, checkWith_struct_vlist]
              exact hF fs (fun f hf => ⟨hsz f hf, hper f hf⟩) 0 _
          | _ => simp [checkWith, isRecordValue]
      | _ => cases v <;> simp [checkWith]

theorem coerceOk_of_checkL {t : DataType} {v : PyValue} (hn : hasNulltype t = false)
    (h : checkWith true t v = true) : coerceOk t v = true := by
  show checkWith false t v = true
  rw [← checkWith_strict (sizeOf t) t le_rfl hn v]
  exact h

theorem fold_absorb (ws : List PyValue) : ∀ t0 : DataType, wfNames t0 = true →
    wfNames (ws.foldl (fun acc w => merge acc (inferValue w)) t0) = true ∧
    (∀ v : PyValue, checkWith true t0 v = true → covers t0 v = true →
      checkWith true (ws.foldl (fun acc w => merge acc (inferValue w)) t0) v = true ∧
        covers (ws.foldl (fun acc w => merge acc (inferValue w)) t0) v = true) ∧
    (∀ w ∈ ws, checkWith true (ws.foldl (fun acc w => merge acc (inferValue w)) t0) w = true ∧
        covers (ws.foldl (fun acc w => merge acc (inferValue w)) t0) w = true) := by
  induction ws with
  | nil =>
      intro t0 hw
      exact ⟨hw, fun v hc hv => ⟨hc, hv⟩, fun w hw2 => absurd hw2 (by simp)⟩
  | cons w ws ihw =>
      intro t0 hw0
      have hws := self_check (sizeOf w) w le_rfl
      have hw1 : wfNames (merge t0 (inferValue w)) = true :=
        wf_merge (sizeOf t0) t0 le_rfl _ hw0 hws.1
      obtain ⟨hwf, hpres, hmem⟩ := ihw (merge t0 (inferValue w)) hw1
      rw [List.foldl_cons]
      refine ⟨hwf, ?_, ?_⟩
      · intro v hc hv
        have step := absorb_main (sizeOf v) v le_rfl t0 (inferValue w) hw0 hws.1
          (Or.inl ⟨hc, hv⟩)
        exact hpres v step.1 step.2
      · intro z hz
        rcases List.mem_cons.mp hz with rfl | hz2
        · have step := absorb_main (sizeOf z) z le_rfl t0 (inferValue z) hw0 hws.1
            (Or.inr ⟨hws.2.1, hws.2.2⟩)
          exact hpres z step.1 step.2
        · exact hmem z hz2

theorem scalars_coerce (v : PyValue) (ws : List PyValue)
    (hn : hasNulltype (ws.foldl (fun acc w => merge acc (inferValue w)) (inferValue v))
      = false) :
    ∀ w ∈ v :: ws,
      coerceOk (ws.foldl (fun acc w => merge acc (inferValue w)) (inferValue v)) w = true := by
  intro w hw
  have hv := self_check (sizeOf v) v le_rfl
  obtain ⟨hwf, hpres, hmem⟩ := fold_absorb ws (inferValue v) hv.1
  rcases List.mem_cons.mp hw with rfl | hw2
  · exact coerceOk_of_checkL hn (hpres w hv.2.1 hv.2.2).1
  · exact coerceOk_of_checkL hn (hmem w hw2).1

theorem normalize_scalars (vs : List PyValue) :
    normalizeData (vs.map .scalar) = .ok (vs.map fun v => .tuple [v]) := by
  cases vs with
  | nil => rfl
  | cons v ws =>
      simp only [normalizeData, List.map_cons, List.head?_cons]
      refine congrArg Except.ok ?_
      rw [show wrapItem (.scalar v) = Item.tuple [v] from rfl, List.map_map]
      exact congrArg _ (List.map_congr_left fun w _ => rfl)

theorem sortDictItems_dicts (ess : List (List (String × PyValue))) :
    sortDictItems (ess.map Item.dict)
      = .ok (ess.map fun es => Item.dict (sortByKey (dedupByKeyLast es))) := by
  induction ess with
  | nil => rfl
  | cons es rest ih => simp [sortDictItems, ih]

theorem normalizeData_dicts (ess : List (List (String × PyValue))) :
    normalizeData (ess.map Item.dict)
      = .ok (ess.map fun es => Item.dict (sortByKey (dedupByKeyLast es))) := by
  cases ess with
  | nil => rfl
  | cons es rest =>
      simp only [normalizeData, List.map_cons, List.head?_cons]
      exact sortDictItems_dicts (es :: rest)

theorem sortDictItems_ok_length : ∀ {xs r : List Item}, sortDictItems xs = .ok r →
    r.length = xs.length := by
  intro xs
  induction xs with
  | nil => intro r h; cases h; rfl
  | cons x rest ih =>
      intro r h
      cases x with
      | dict es =>
          rw [sortDictItems] at h
          cases hrec : sortDictItems rest with
          | ok r2 =>
              rw [hrec] at h
              cases h
              simp [ih hrec]
          | error e =>
              rw [hrec] at h
              cases h
      | rowRec ns vs =>
          rw [sortDictItems] at h
          · cases h
          · intro es hes
            exact Item.noConfusion hes
      | tuple vs2 =>
          rw [sortDictItems] at h
          · cases h
          · intro es hes
            exact Item.noConfusion hes
      | scalar v =>
          rw [sortDictItems] at h
          · cases h
          · intro es hes
            exact Item.noConfusion hes

theorem normalizeData_ok_ne_nil {rows nr : List Item} (h : rows ≠ [])
    (hn : normalizeData rows = .ok nr) : nr ≠ [] := by
  cases rows with
  | nil => exact absurd rfl h
  | cons r rs =>
      cases r with
      | dict es =>
          simp only [normalizeData, List.head?_cons] at hn
          have hl := sortDictItems_ok_length hn
          intro hnil
          rw [hnil] at hl
          simp at hl
      | scalar v =>
          simp only [normalizeData, List.head?_cons] at hn
          cases hn
          simp
      | rowRec ns vs =>
          simp only [normalizeData, List.head?_cons] at hn
          cases hn
          simp
      | tuple vs2 =>
          simp only [normalizeData, List.head?_cons] at hn
          cases hn
          simp

theorem inferSchemaFromList_normalize {rows nr : List Item} (cols0 : Option (List String))
    (h : rows ≠ []) (hn : normalizeData rows = .ok nr) :
    inferSchemaFromList nr cols0 = .ok (inferredSchemaOf rows cols0) := by
  have hne := normalizeData_ok_ne_nil h hn
  cases nrc : nr with
  | nil => exact absurd nrc hne
  | cons r rs =>
      subst nrc
      simp only [inferredSchemaOf, hn]
      rw [inferSchemaFromList]

theorem buildTable_items (rows nr : List Item) (cols0 : Option (List String))
    (ps : Option DataType) (h : rows ≠ []) (hn : normalizeData rows = .ok nr) :
    buildTable (.items rows) cols0 ps =
      if hasNulltype (inferredSchemaOf rows cols0) then
        match ps with
        | some (.structType fs) =>
            match materialize nr fs with
            | .ok tbl => .ok (tbl, cols0)
            | .error e => .error e
        | _ => .error .schemaRequired
      else
        match materializeDT nr (inferredSchemaOf rows cols0) with
        | .ok tbl => .ok (tbl, cols0)
        | .error e => .error e := by
  simp only [buildTable, hn, inferSchemaFromList_normalize cols0 h hn]

theorem convert_items_build (rows : List Item) (sch : Option SchemaSpec) (h : rows ≠ []) :
    convert (.items rows) sch =
      match buildTable (.items rows) (schemaColsOf sch) (schemaDTOf sch) with
      | .error e => .error e
      | .ok (t, colsF) =>
          match schemaNumColsOf sch with
          | some n =>
              if n = t.length then finishResult t (schemaDTOf sch) (schemaStrOf sch) colsF
              else .error (.lengthMismatch n t.length)
          | none => finishResult t (schemaDTOf sch) (schemaStrOf sch) colsF := by
  have hlen : (rows.length = 0) = False := by
    simp [List.length_eq_zero]
    exact h
  simp only [convert, dataLen, hlen, if_false]

theorem materializeCol_ok {f : Fld} {j : Nat} : ∀ {rows : List Item} {cs : List (Option PyValue)},
    materializeCol f j rows = .ok cs →
    cs.length = rows.length ∧
    ∀ i r, rows.get? i = some r → cs.get? i = some (toCell (rawCell r j f.1)) := by
  intro rows
  induction rows with
  | nil =>
      intro cs h
      cases h
      exact ⟨rfl, by simp⟩
  | cons r rest ih =>
      intro cs h
      rw [materializeCol] at h
      split at h
      · rename_i c cs2 hc hrest
        cases h
        obtain ⟨hl, hg⟩ := ih hrest
        refine ⟨by simp [hl], ?_⟩
        intro i r2 hr
        cases i with
        | zero =>
            rw [List.get?_cons_zero] at hr
            cases hr
            have hceq : c = toCell (rawCell r j f.1) := by
              rw [extractCellE] at hc
              split at hc
              · cases hc
                rfl
              · cases hc
            rw [List.get?_cons_zero, hceq]
        | succ i2 =>
            rw [List.get?_cons_succ] at hr ⊢
            exact hg i2 r2 hr
      · exact Except.noConfusion h
      · exact Except.noConfusion h

theorem materializeFrom_ok_length {rows : List Item} : ∀ (fs : List Fld) (j : Nat) (t : Table),
    materializeFrom rows j fs = .ok t → t.length = fs.length := by
  intro fs
  induction fs with
  | nil =>
      intro j t h
      cases h
      rfl
  | cons f rest ih =>
      intro j t h
      rw [materializeFrom] at h
      split at h
      · rename_i cs t2 hc hrest
        cases h
        simp [ih (j + 1) t2 hrest]
      · exact Except.noConfusion h
      · exact Except.noConfusion h

theorem materializeFrom_ok_get {rows : List Item} : ∀ (fs : List Fld) (j : Nat) (t : Table),
    materializeFrom rows j fs = .ok t →
    ∀ i f, fs.get? i = some f →
      ∃ cs, materializeCol f (j + i) rows = .ok cs ∧ t.get? i = some (f.1, cs) := by
  intro fs
  induction fs with
  | nil =>
      intro j t h i f hf
      simp at hf
  | cons f0 rest ih =>
      intro j t h i f hf
      rw [materializeFrom] at h
      split at h
      case _ =>
          rename_i cs0 t2 hc hrest
          cases h
          cases i with
              | zero =>
                  cases hf
                  refine ⟨cs0, ?_, by simp⟩
                  rw [Nat.add_zero]
                  exact hc
              | succ i2 =>
                  rw [List.get?_cons_succ] at hf
                  obtain ⟨cs, hcs, hg⟩ := ih (j + 1) t2 hrest i2 f hf
                  refine ⟨cs, ?_, by rw [List.get?_cons_succ]; exact hg⟩
                  rw [show j + (i2 + 1) = j + 1 + i2 from by omega]
                  exact hcs
      case _ => exact Except.noConfusion h
      case _ => exact Except.noConfusion h

theorem materializeCol_value (Tv : DataType) (vs : List PyValue)
    (h : ∀ w ∈ vs, coerceOk Tv w = true) :
    materializeCol ("value", Tv, true) 0 (vs.map fun v => .tuple [v]) = .ok (vs.map toCell) := by
  induction vs with
  | nil => rfl
  | cons v ws ih =>
      rw [List.map_cons, materializeCol]
      have hcell : extractCellE (.tuple [v]) 0 ("value", Tv, true) = .ok (toCell v) := by
        rw [extractCellE]
        rw [show rawCell (Item.tuple [v]) 0 ("value", Tv, true).1 = v from by simp [rawCell]]
        rw [if_pos (h v (List.mem_cons_self _ _))]
      rw [hcell, ih fun w hw => h w (List.mem_cons_of_mem _ hw)]
      rfl

theorem infer_scalar_fold2 (t0 : DataType) (ws : List PyValue) :
    (ws.map fun w => Item.tuple [w]).foldl (fun acc it => merge acc (inferItem none it))
      (.structType [("value", t0, true)])
      = .structType [("value", ws.foldl (fun acc w => merge acc (inferValue w)) t0, true)] := by
  induction ws generalizing t0 with
  | nil => rfl
  | cons w ws ih =>
      have hstep : merge (.structType [("value", t0, true)]) (inferItem none (.tuple [w]))
          = .structType [("value", merge t0 (inferValue w), true)] := by
        simp +decide [inferItem, synthNames, merge_struct, mergeFields, combineFld, extrasFld]
      simp only [List.map_cons, List.foldl_cons, hstep]
      exact ih (merge t0 (inferValue w))

/-- C6: a collection of bare scalars (with no caller-supplied names) has each
scalar wrapped as a single-element positional row, and — whenever inference is
not left undetermined — the conversion produces a single column carrying the
synthetic name `"value"` whose cells are the scalars. -/
theorem claim_C6_scalar_items (vs : List PyValue) (hne : vs ≠ [])
    (hdet : hasNulltype (inferredSchemaOf (vs.map .scalar) none) = false) :
    convert (.items (vs.map .scalar)) none
      = .ok ⟨some [("value", vs.map toCell)], none, none, none⟩ := by
  obtain ⟨v, ws, rfl⟩ : ∃ v ws, vs = v :: ws := by
    cases vs with
    | nil => exact absurd rfl hne
    | cons v ws => exact ⟨v, ws, rfl⟩
  have hrows : ((v :: ws).map Item.scalar) ≠ [] := by simp
  have hnorm := normalize_scalars (v :: ws)
  have hfirst : inferItem none (.tuple [v]) = .structType [("value", inferValue v, true)] := by
    simp +decide [inferItem, synthNames]
  have hinf : inferredSchemaOf ((v :: ws).map .scalar) none
      = .structType [("value",
          ws.foldl (fun acc w => merge acc (inferValue w)) (inferValue v), true)] := by
    rw [inferredSchemaOf, hnorm]
    simp only [List.map_cons]
    rw [hfirst, infer_scalar_fold2]
  have hTn : hasNulltype (ws.foldl (fun acc w => merge acc (inferValue w)) (inferValue v))
      = false := by
    have hdet2 := hdet
    rw [hinf] at hdet2
    simpa [hasNulltype, hasNulltypeFields] using hdet2
  have hco := scalars_coerce v ws hTn
  rw [convert_items_build _ none hrows]
  rw [show schemaColsOf none = none from rfl, show schemaDTOf none = none from rfl]
  rw [buildTable_items _ _ none none hrows hnorm]
  rw [hinf]
  rw [show hasNulltype (.structType [("value",
      ws.foldl (fun acc w => merge acc (inferValue w)) (inferValue v), true)])
      = hasNulltype (ws.foldl (fun acc w => merge acc (inferValue w)) (inferValue v)) from by
    simp [hasNulltype, hasNulltypeFields]]
  rw [hTn]
  simp only [Bool.false_eq_true, if_false]
  rw [materializeDT, materialize, materializeFrom, materializeFrom]
  rw [materializeCol_value _ _ hco]
  simp [schemaNumColsOf, finishResult, schemaStrOf]

theorem claim_C6_witness :
    ([PyValue.int 1, PyValue.int 2, PyValue.int 3] : List PyValue) ≠ [] ∧
    hasNulltype (inferredSchemaOf ([PyValue.int 1, PyValue.int 2, PyValue.int 3].map .scalar)
      none) = false ∧
    convert (.items ([PyValue.int 1, PyValue.int 2, PyValue.int 3].map .scalar)) none
      = .ok ⟨some [("value", [PyValue.int 1, PyValue.int 2, PyValue.int 3].map toCell)],
          none, none, none⟩ := by
  have h1 : ([PyValue.int 1, PyValue.int 2, PyValue.int 3] : List PyValue) ≠ [] := by simp
  have h2 : hasNulltype
      (inferredSchemaOf ([PyValue.int 1, PyValue.int 2, PyValue.int 3].map .scalar) none)
      = false := by
    simp +decide [inferredSchemaOf, normalizeData, wrapItem, inferItem, inferValue, intWidth,
      synthNames, merge, mergeCommon, isNullType, hasNulltype, hasNulltypeFields]
  exact ⟨h1, h2, claim_C6_scalar_items [PyValue.int 1, PyValue.int 2, PyValue.int 3] h1 h2⟩

/-- C1 counterexample: the one-row collection `[("Alice", None, 80.1)]` has an
undetermined inferred schema, yet converting it with the explicit struct schema
`a BOOLEAN, b BOOLEAN, c BOOLEAN` does not succeed as the claim requires for
every explicit struct schema: the string "Alice" cannot be cast to boolean, so
the conversion fails with the fatal coercion error naming field `a`. -/
theorem claim_C1_counterexample :
    hasNulltype (inferredSchemaOf [Item.tuple [.str "Alice", .none, .float (80.1 : Rat)]] none)
      = true ∧
    convert (.items [Item.tuple [.str "Alice", .none, .float (80.1 : Rat)]])
        (some (.dt (.structType [("a", .booleanType, false), ("b", .booleanType, false),
          ("c", .booleanType, false)])))
      = .error (.coercionError "a") := by
  constructor
  · simp +decide [inferredSchemaOf, normalizeData, inferItem, inferValue, intWidth, synthNames,
      hasNulltype, hasNulltypeFields, List.range_succ]
  · simp +decide [convert, dataLen, buildTable, normalizeData, inferSchemaFromList, inferItem,
      inferValue, intWidth, synthNames, hasNulltype, hasNulltypeFields, materialize,
      materializeFrom, materializeCol, extractCellE, rawCell, coerceOk, checkWith, toCell,
      schemaDTOf, schemaStrOf, schemaColsOf, schemaNumColsOf, isAtomicType, isStructType,
      List.range_succ, finishResult]

/-- C1 amended: when merge-reduced inference over a non-empty record collection
is undetermined (a `Null` type survives), conversion without a schema, or with
an atomic (non-struct) `DataType` schema, fails with the "a StructType Schema
is required" error; with an explicit struct schema under which every value of
the normalized rows is coercible (the materializer succeeds), conversion
succeeds, the supplied struct drives materialization and is attached to the
result, and any `None` value of a positional row is materialized as a null
cell in its field, whatever that field's declared nullability. -/
theorem claim_C1_amended (rows nrows : List Item) (hne : rows ≠ [])
    (hnorm : normalizeData rows = .ok nrows)
    (hnull : hasNulltype (inferredSchemaOf rows none) = true) :
    convert (.items rows) none = .error .schemaRequired ∧
    (∀ t : DataType, isAtomicType t = true →
      convert (.items rows) (some (.dt t)) = .error .schemaRequired) ∧
    (∀ fs : List Fld, ∀ tbl : Table, materialize nrows fs = .ok tbl →
      convert (.items rows) (some (.dt (.structType fs)))
        = .ok ⟨some tbl, some (.structType fs), none, none⟩) ∧
    (∀ fs : List Fld, ∀ tbl : Table, materialize nrows fs = .ok tbl →
      ∀ i j : Nat, ∀ vs : List PyValue, ∀ f : Fld,
        nrows.get? i = some (.tuple vs) → vs.get? j = some .none → fs.get? j = some f →
        ∃ col, tbl.get? j = some col ∧ col.2.get? i = some Option.none) := by
  refine ⟨?_, ?_, ?_, ?_⟩
  · rw [convert_items_build _ none hne]
    rw [show schemaColsOf none = none from rfl, show schemaDTOf none = none from rfl]
    rw [buildTable_items _ _ none none hne hnorm]
    simp only [hnull, if_true]
  · intro t ht
    rw [convert_items_build _ _ hne]
    rw [show schemaColsOf (some (.dt t)) = none from rfl]
    have hdt : schemaDTOf (some (.dt t)) = some t := by
      simp [schemaDTOf, ht]
    rw [hdt, buildTable_items _ _ none (some t) hne hnorm]
    simp only [hnull, if_true]
    cases t <;> simp_all [isAtomicType]
  · intro fs tbl hmat
    rw [convert_items_build _ _ hne]
    rw [show schemaColsOf (some (.dt (.structType fs))) = none from rfl,
      show schemaDTOf (some (.dt (.structType fs))) = some (.structType fs) from rfl]
    rw [buildTable_items _ _ none (some (.structType fs)) hne hnorm]
    simp only [hnull, if_true, hmat]
    have hlen : tbl.length = fs.length := materializeFrom_ok_length fs 0 tbl hmat
    simp only [schemaNumColsOf, hlen, if_true, finishResult, schemaStrOf]
  · intro fs tbl hmat i j vs f hrow hv hf
    obtain ⟨cs, hcs, hget⟩ := materializeFrom_ok_get fs 0 tbl hmat j f hf
    rw [Nat.zero_add] at hcs
    refine ⟨(f.1, cs), hget, ?_⟩
    have hcell := (materializeCol_ok hcs).2 i (.tuple vs) hrow
    have hv2 : vs[j]? = some PyValue.none := by
      rw [← List.get?_eq_getElem?]
      exact hv
    rw [hcell]
    simp [rawCell, hv2, toCell]

theorem claim_C1_witness :
    ([Item.tuple [.str "Alice", .none, .float (80.1 : Rat)]] : List Item) ≠ [] ∧
    normalizeData [Item.tuple [.str "Alice", .none, .float (80.1 : Rat)]]
      = .ok [Item.tuple [.str "Alice", .none, .float (80.1 : Rat)]] ∧
    hasNulltype
      (inferredSchemaOf [Item.tuple [.str "Alice", .none, .float (80.1 : Rat)]] none) = true ∧
    (convert (.items [Item.tuple [.str "Alice", .none, .float (80.1 : Rat)]]) none
        = .error .schemaRequired ∧
      (∀ t : DataType, isAtomicType t = true →
        convert (.items [Item.tuple [.str "Alice", .none, .float (80.1 : Rat)]]) (some (.dt t))
          = .error .schemaRequired) ∧
      (∀ fs : List Fld, ∀ tbl : Table,
        materialize [Item.tuple [.str "Alice", .none, .float (80.1 : Rat)]] fs = .ok tbl →
        convert (.items [Item.tuple [.str "Alice", .none, .float (80.1 : Rat)]])
            (some (.dt (.structType fs)))
          = .ok ⟨some tbl, some (.structType fs), none, none⟩) ∧
      (∀ fs : List Fld, ∀ tbl : Table,
        materialize [Item.tuple [.str "Alice", .none, .float (80.1 : Rat)]] fs = .ok tbl →
        ∀ i j : Nat, ∀ vs : List PyValue, ∀ f : Fld,
          ([Item.tuple [.str "Alice", .none, .float (80.1 : Rat)]] : List Item).get? i
              = some (.tuple vs) →
          vs.get? j = some .none → fs.get? j = some f →
          ∃ col, tbl.get? j = some col ∧ col.2.get? i = some Option.none)) := by
  have h1 : ([Item.tuple [.str "Alice", .none, .float (80.1 : Rat)]] : List Item) ≠ [] := by
    simp
  have h0 : normalizeData [Item.tuple [.str "Alice", .none, .float (80.1 : Rat)]]
      = .ok [Item.tuple [.str "Alice", .none, .float (80.1 : Rat)]] := rfl
  have h2 : hasNulltype
      (inferredSchemaOf [Item.tuple [.str "Alice", .none, .float (80.1 : Rat)]] none)
      = true := by
    simp +decide [inferredSchemaOf, normalizeData, inferItem, inferValue, intWidth, synthNames,
      hasNulltype, hasNulltypeFields, List.range_succ]
  exact ⟨h1, h0, h2, claim_C1_amended _ _ h1 h0 h2⟩

/-- C2: every mapping record of a dict-led collection is normalized with its
keys sorted lexicographically before inference (universally over the
collection), so two mappings holding the same keys in different orders infer
identical structs (field order independent of entry order); in particular the
two-row example infers fields ordered `(a, b)` and materializes columns
`a = [2, 3]`, `b = [1, 4]`, i.e. rows `(2, 1)` and `(3, 4)`. -/
theorem claim_C2_dict_key_sorting :
    (∀ ess : List (List (String × PyValue)),
      normalizeData (ess.map Item.dict)
        = .ok (ess.map fun es => Item.dict (sortByKey (dedupByKeyLast es)))) ∧
    (∀ es1 es2 : List (String × PyValue), es1.Perm es2 → (es1.map Prod.fst).Nodup →
      inferItem none (.dict es1) = inferItem none (.dict es2)) ∧
    inferredSchemaOf
        [.dict [("b", .int 1), ("a", .int 2)], .dict [("a", .int 3), ("b", .int 4)]] none
      = .structType [("a", .integerType 8, true), ("b", .integerType 8, true)] ∧
    convert
        (.items [.dict [("b", .int 1), ("a", .int 2)], .dict [("a", .int 3), ("b", .int 4)]])
        none
      = .ok ⟨some [("a", [some (.int 2), some (.int 3)]), ("b", [some (.int 1), some (.int 4)])],
          none, none, none⟩ := by
  refine ⟨normalizeData_dicts, ?_, ?_, ?_⟩
  · intro es1 es2 hperm hnd
    have hnd2 : (es2.map Prod.fst).Nodup := (List.Perm.nodup_iff (hperm.map Prod.fst)).mp hnd
    rw [inferItem, inferItem, dedupLast_of_nodupKeys hnd, dedupLast_of_nodupKeys hnd2]
    suffices h : sortByKey es1 = sortByKey es2 by rw [h]
    have hp : (sortByKey es1).Perm (sortByKey es2) :=
      (sortByKey_perm es1).trans (hperm.trans (sortByKey_perm es2).symm)
    have htot : IsTotal (String × PyValue) fun a b => a.1 ≤ b.1 :=
      ⟨fun a b => le_total a.1 b.1⟩
    have htrans : IsTrans (String × PyValue) fun a b => a.1 ≤ b.1 :=
      ⟨fun a b c h1 h2 => le_trans h1 h2⟩
    have hanti : IsAntisymm (String × PyValue) fun a b => a.1 < b.1 :=
      ⟨fun a b h1 h2 => absurd h2 (lt_asymm h1)⟩
    have hstrict : ∀ es : List (String × PyValue), (es.map Prod.fst).Nodup →
        List.Pairwise (fun a b : String × PyValue => a.1 < b.1) (sortByKey es) := by
      intro es hnd3
      have hs : List.Sorted (fun a b : String × PyValue => a.1 ≤ b.1) (sortByKey es) :=
        @List.sorted_insertionSort _ _ inferInstance htot htrans es
      have hndk : ((sortByKey es).map Prod.fst).Nodup :=
        (List.Perm.nodup_iff ((sortByKey_perm es).map Prod.fst)).mpr hnd3
      have hpne : List.Pairwise (fun a b : String × PyValue => a.1 ≠ b.1) (sortByKey es) :=
        (List.pairwise_map).mp hndk
      exact (hs.and hpne).imp fun h => lt_of_le_of_ne h.1 h.2
    exact @List.eq_of_perm_of_sorted _ _ hanti _ _ hp (hstrict es1 hnd) (hstrict es2 hnd2)
  · simp +decide [inferredSchemaOf, normalizeData, sortDictItems, sortByKey, dedupByKeyLast,
      List.insertionSort, List.orderedInsert, inferItem, inferValue, intWidth, merge,
      mergeCommon, isNullType]
  · simp +decide [convert, dataLen, buildTable, normalizeData, sortDictItems, sortByKey,
      dedupByKeyLast, List.insertionSort, List.orderedInsert, inferSchemaFromList, inferItem,
      inferValue, intWidth, merge, mergeCommon, isNullType, hasNulltype, hasNulltypeFields,
      materializeDT, materialize, materializeFrom, materializeCol, extractCellE, rawCell,
      coerceOk, checkWith, toCell, schemaDTOf, schemaStrOf, schemaColsOf,
      schemaNumColsOf, finishResult, List.find?]

/-- C10: a data argument that is already a DataFrame is rejected immediately
with the TypeError "data is already a DataFrame", whatever the schema argument,
before any conversion work. -/
theorem claim_C10_dataframe_rejected (sch : Option SchemaSpec) :
    convert .dataframe sch = .error .alreadyDataFrame := rfl

/-- C9: the schema merge is associative, and `_inferSchemaFromList` obtains the
unified schema of a non-empty collection as a left-fold reduction of the merge
over the per-row inferred types, seeded with the first row's type. -/
theorem claim_C9_merge_associative_fold :
    (∀ a b c : DataType, merge (merge a b) c = merge a (merge b c)) ∧
    (∀ (names : Option (List String)) (r : Item) (rs : List Item),
      inferSchemaFromList (r :: rs) names
        = .ok ((rs.map (inferItem names)).foldl merge (inferItem names r))) := by
  refine ⟨merge_assoc, fun names r rs => ?_⟩
  rw [inferSchemaFromList, List.foldl_map]

/-- C4: converting an empty collection with no schema fails with the
"can not infer schema from empty dataset" error; with an explicit `DataType`
schema (atomic or struct) or a DDL schema string it succeeds, producing a
zero-row relation carrying exactly that schema. -/
theorem claim_C4_empty_collection (t : DataType) (s : String)
    (ht : (isAtomicType t || isStructType t) = true) :
    convert (.items []) none = .error .emptyDataset ∧
    convert (.items []) (some (.dt t)) = .ok ⟨none, some t, none, none⟩ ∧
    ConvResult.rowCount ⟨none, some t, none, none⟩ = 0 ∧
    convert (.items []) (some (.ddl s)) = .ok ⟨none, none, some s, none⟩ ∧
    ConvResult.rowCount ⟨none, none, some s, none⟩ = 0 := by
  refine ⟨rfl, ?_, rfl, rfl, rfl⟩
  simp [convert, dataLen, schemaDTOf, ht]

theorem claim_C4_witness :
    ((isAtomicType (.structType [("a", .stringType, true)])
        || isStructType (.structType [("a", .stringType, true)])) = true) ∧
    (convert (.items []) none = .error .emptyDataset ∧
      convert (.items []) (some (.dt (.structType [("a", .stringType, true)])))
        = .ok ⟨none, some (.structType [("a", .stringType, true)]), none, none⟩ ∧
      ConvResult.rowCount ⟨none, some (.structType [("a", .stringType, true)]), none, none⟩ = 0 ∧
      convert (.items []) (some (.ddl "a STRING"))
        = .ok ⟨none, none, some "a STRING", none⟩ ∧
      ConvResult.rowCount ⟨none, none, some "a STRING", none⟩ = 0) :=
  ⟨rfl, claim_C4_empty_collection (.structType [("a", .stringType, true)]) "a STRING" rfl⟩

/-- C5 counterexample: a 2-D array of shape (3,1) with no caller-supplied names
gets its single column named `"value"`, not `"_1"` as the claim requires for
every 2-D array (the source names a single column `"value"` whenever
`ndim == 1 or shape[1] == 1`). -/
theorem claim_C5_counterexample :
    convert (.ndarray (.arr2 1 [[.int 1], [.int 2], [.int 3]])) none
      = .ok ⟨some [("value", [some (.int 1), some (.int 2), some (.int 3)])], none, none,
          some ["value"]⟩ ∧
    ("value" : String) ≠ "_1" := by
  constructor
  · simp +decide [convert, dataLen, NDArray.len, buildTable, NDArray.defaultCols, toCell,
      schemaDTOf, schemaStrOf, schemaColsOf, schemaNumColsOf, finishResult, List.range_succ]
  · decide

/-- C5 amended: for a non-empty 2-D array with trailing-axis length N at least
2 and no caller-supplied names, the materialized columns are named
`"_1".."_N"`; for a non-empty 2-D array with trailing-axis length 1, and for a
non-empty 1-D array, the single column is named `"value"`. -/
theorem claim_C5_amended (ncols : Nat) (rows : List (List PyValue)) (xs : List PyValue)
    (hrows : rows ≠ []) (hxs : xs ≠ []) :
    (2 ≤ ncols →
      convert (.ndarray (.arr2 ncols rows)) none
        = .ok ⟨some (((List.range ncols).map fun i => "_" ++ toString (i + 1)).zip
              ((List.range ncols).map fun i => rows.map fun r => toCell (r.getD i .none))),
            none, none, some ((List.range ncols).map fun i => "_" ++ toString (i + 1))⟩) ∧
    (convert (.ndarray (.arr2 1 rows)) none
      = .ok ⟨some [("value", rows.map fun r => toCell (r.getD 0 .none))], none, none,
          some ["value"]⟩) ∧
    (convert (.ndarray (.arr1 xs)) none
      = .ok ⟨some [("value", xs.map toCell)], none, none, some ["value"]⟩) := by
  have hrlen : (rows.length = 0) = False := by
    simp [List.length_eq_zero]
    exact hrows
  have hxlen : (xs.length = 0) = False := by
    simp [List.length_eq_zero]
    exact hxs
  refine ⟨fun h2 => ?_, ?_, ?_⟩
  · have hne1 : ¬(ncols = 1) := by omega
    have hpos : 0 < ncols := by omega
    simp [convert, dataLen, NDArray.len, hrlen, buildTable, NDArray.defaultCols, hne1,
      schemaDTOf, schemaStrOf, schemaColsOf, schemaNumColsOf, finishResult, hpos]
  · simp [convert, dataLen, NDArray.len, hrlen, buildTable, NDArray.defaultCols,
      schemaDTOf, schemaStrOf, schemaColsOf, schemaNumColsOf, finishResult, List.range_succ]
  · simp [convert, dataLen, NDArray.len, hxlen, buildTable, NDArray.defaultCols,
      schemaDTOf, schemaStrOf, schemaColsOf, schemaNumColsOf, finishResult]

theorem claim_C5_amended_witness :
    ([[PyValue.int 1, PyValue.int 2]] : List (List PyValue)) ≠ [] ∧
    ([PyValue.int 7] : List PyValue) ≠ [] ∧
    ((2 ≤ 2 →
      convert (.ndarray (.arr2 2 [[PyValue.int 1, PyValue.int 2]])) none
        = .ok ⟨some (((List.range 2).map fun i => "_" ++ toString (i + 1)).zip
              ((List.range 2).map fun i =>
                [[PyValue.int 1, PyValue.int 2]].map fun r => toCell (r.getD i .none))),
            none, none, some ((List.range 2).map fun i => "_" ++ toString (i + 1))⟩) ∧
    (convert (.ndarray (.arr2 1 [[PyValue.int 1, PyValue.int 2]])) none
      = .ok ⟨some [("value",
            [[PyValue.int 1, PyValue.int 2]].map fun r => toCell (r.getD 0 .none))],
          none, none, some ["value"]⟩) ∧
    (convert (.ndarray (.arr1 [PyValue.int 7])) none
      = .ok ⟨some [("value", [PyValue.int 7].map toCell)], none, none, some ["value"]⟩)) := by
  refine ⟨by simp, by simp, claim_C5_amended 2 [[PyValue.int 1, PyValue.int 2]] [PyValue.int 7]
    (by simp) (by simp)⟩

/-- C7 counterexample: an empty 1-D array with the two-name list `["a", "b"]`
fails, but with the empty-dataset error raised by the earlier empty-input
check, not with the length-mismatch error the claim requires. -/
theorem claim_C7_counterexample :
    convert (.ndarray (.arr1 [])) (some (.names ["a", "b"])) = .error .emptyDataset ∧
    ConvError.emptyDataset ≠ ConvError.lengthMismatch 1 2 := by
  exact ⟨rfl, by decide⟩

/-- C7 amended: for a non-empty array with a caller-supplied name list whose
length differs from the array's column count (1 for 1-D, the trailing-axis
length for 2-D), convert fails with the length-mismatch error naming both
counts; an empty array instead hits the empty-collection path first. -/
theorem claim_C7_amended (xs : List PyValue) (rows : List (List PyValue)) (ncols : Nat)
    (ns : List String) (hxs : xs ≠ []) (hrows : rows ≠ []) :
    (ns.length ≠ 1 → convert (.ndarray (.arr1 xs)) (some (.names ns))
        = .error (.lengthMismatch 1 ns.length)) ∧
    (ns.length ≠ ncols → convert (.ndarray (.arr2 ncols rows)) (some (.names ns))
        = .error (.lengthMismatch ncols ns.length)) := by
  have hrlen : (rows.length = 0) = False := by
    simp [List.length_eq_zero]
    exact hrows
  have hxlen : (xs.length = 0) = False := by
    simp [List.length_eq_zero]
    exact hxs
  constructor
  · intro h1
    match ns, h1 with
    | [], _ =>
        simp [convert, dataLen, NDArray.len, hxlen, buildTable,
          schemaDTOf, schemaStrOf, schemaColsOf, schemaNumColsOf]
    | c1 :: c2 :: rest, _ =>
        simp [convert, dataLen, NDArray.len, hxlen, buildTable,
          schemaDTOf, schemaStrOf, schemaColsOf, schemaNumColsOf]
    | [c], h1 => exact absurd rfl h1
  · intro h2
    have hnc : (ns.length = ncols) = False := by simp [h2]
    simp [convert, dataLen, NDArray.len, hrlen, buildTable,
      schemaDTOf, schemaStrOf, schemaColsOf, schemaNumColsOf, hnc]

theorem claim_C7_amended_witness :
    ([PyValue.int 5] : List PyValue) ≠ [] ∧
    ([[PyValue.int 1, PyValue.int 2]] : List (List PyValue)) ≠ [] ∧
    ((["a", "b", "c"].length ≠ 1 →
        convert (.ndarray (.arr1 [PyValue.int 5])) (some (.names ["a", "b", "c"]))
          = .error (.lengthMismatch 1 ["a", "b", "c"].length)) ∧
      (["a", "b", "c"].length ≠ 2 →
        convert (.ndarray (.arr2 2 [[PyValue.int 1, PyValue.int 2]]))
            (some (.names ["a", "b", "c"]))
          = .error (.lengthMismatch 2 ["a", "b", "c"].length))) :=
  ⟨by simp, by simp,
    claim_C7_amended [PyValue.int 5] [[PyValue.int 1, PyValue.int 2]] 2 ["a", "b", "c"]
      (by simp) (by simp)⟩

/-- C8 counterexample: an empty 3-dimensional array (shape (0,3,3)) with an
explicit struct schema converts successfully through the empty-collection early
return, contradicting the claim that every array of dimensionality other than
1 or 2 fails with the dimensionality error. -/
theorem claim_C8_counterexample :
    convert (.ndarray (.arrHigher [0, 3, 3]))
        (some (.dt (.structType [("a", .integerType 64, true)])))
      = .ok ⟨none, some (.structType [("a", .integerType 64, true)]), none, none⟩ ∧
    ∀ e : ConvError,
      convert (.ndarray (.arrHigher [0, 3, 3]))
          (some (.dt (.structType [("a", .integerType 64, true)])))
        ≠ .error e := by
  refine ⟨rfl, fun e h => ?_⟩
  rw [show convert (.ndarray (.arrHigher [0, 3, 3]))
      (some (.dt (.structType [("a", .integerType 64, true)])))
    = .ok ⟨none, some (.structType [("a", .integerType 64, true)]), none, none⟩ from rfl] at h
  exact Except.noConfusion h

/-- C8 amended: an array of three or more dimensions whose first axis is
non-empty fails with the "should be of 1 or 2 dimensions" error before any
columns are built, whatever the schema argument; an empty such array is
handled by the empty-collection path first. -/
theorem claim_C8_amended (shape : List Nat) (sch : Option SchemaSpec)
    (hdim : 3 ≤ shape.length) (hne : shape.headD 0 ≠ 0) :
    convert (.ndarray (.arrHigher shape)) sch = .error .badDimensions := by
  cases shape with
  | nil => simp at hdim
  | cons a rest =>
      have ha : (a = 0) = False := by simpa using hne
      simp [convert, dataLen, NDArray.len, ha, buildTable]

theorem claim_C8_amended_witness :
    3 ≤ ([2, 2, 2] : List Nat).length ∧ ([2, 2, 2] : List Nat).headD 0 ≠ 0 ∧
    convert (.ndarray (.arrHigher [2, 2, 2])) none = .error .badDimensions :=
  ⟨by decide, by decide, claim_C8_amended [2, 2, 2] none (by decide) (by decide)⟩

/-- C3: whenever the caller declared an expected column count (a struct's field
count, 1 for an atomic type, or a name list's length), the table construction
stage succeeded, and the declared count differs from the materialized table's
column count, the conversion fails with the length-mismatch error naming the
declared count and the materialized count. -/
theorem claim_C3_column_count_mismatch (data : InputData) (sch : Option SchemaSpec) (n : Nat)
    (t : Table) (colsF : Option (List String))
    (hn : schemaNumColsOf sch = some n)
    (hbuild : buildTable data (schemaColsOf sch) (schemaDTOf sch) = .ok (t, colsF))
    (hlen : dataLen data ≠ 0)
    (hdiff : n ≠ t.length) :
    convert data sch = .error (.lengthMismatch n t.length) := by
  cases data with
  | dataframe =>
      rw [buildTable] at hbuild
      exact Except.noConfusion hbuild
  | ndarray a =>
      have hl : (dataLen (.ndarray a) = 0) = False := by simpa using hlen
      simp only [convert, hl, if_false, hbuild, hn]
      rw [if_neg hdiff]
  | items xs =>
      have hl : (dataLen (.items xs) = 0) = False := by simpa using hlen
      simp only [convert, hl, if_false, hbuild, hn]
      rw [if_neg hdiff]

theorem claim_C3_witness :
    schemaNumColsOf (some (.dt (.structType [("a", .stringType, true), ("b", .stringType, true),
        ("c", .stringType, true)]))) = some 3 ∧
    buildTable (.items [.tuple [.int 1, .int 2]])
        (schemaColsOf (some (.dt (.structType [("a", .stringType, true), ("b", .stringType, true),
          ("c", .stringType, true)]))))
        (schemaDTOf (some (.dt (.structType [("a", .stringType, true), ("b", .stringType, true),
          ("c", .stringType, true)]))))
      = .ok ([("_1", [some (.int 1)]), ("_2", [some (.int 2)])], none) ∧
    dataLen (.items [.tuple [.int 1, .int 2]]) ≠ 0 ∧
    (3 : Nat) ≠ ([("_1", [some (PyValue.int 1)]), ("_2", [some (PyValue.int 2)])] : Table).length ∧
    convert (.items [.tuple [.int 1, .int 2]])
        (some (.dt (.structType [("a", .stringType, true), ("b", .stringType, true),
          ("c", .stringType, true)])))
      = .error (.lengthMismatch 3
          ([("_1", [some (PyValue.int 1)]), ("_2", [some (PyValue.int 2)])] : Table).length) := by
  have h1 : schemaNumColsOf (some (.dt (.structType [("a", .stringType, true),
      ("b", .stringType, true), ("c", .stringType, true)]))) = some 3 := rfl
  have h2 : buildTable (.items [.tuple [.int 1, .int 2]])
      (schemaColsOf (some (.dt (.structType [("a", .stringType, true), ("b", .stringType, true),
        ("c", .stringType, true)]))))
      (schemaDTOf (some (.dt (.structType [("a", .stringType, true), ("b", .stringType, true),
        ("c", .stringType, true)]))))
      = .ok ([("_1", [some (.int 1)]), ("_2", [some (.int 2)])], none) := by
    simp +decide [buildTable, schemaColsOf, schemaDTOf, normalizeData, inferSchemaFromList,
      inferItem, inferValue, intWidth, synthNames, hasNulltype, hasNulltypeFields,
      materializeDT, materialize, materializeFrom, materializeCol, extractCellE, rawCell,
      coerceOk, checkWith, toCell, List.range_succ]
  have h3 : dataLen (.items [Item.tuple [.int 1, .int 2]]) ≠ 0 := by simp [dataLen]
  have h4 : (3 : Nat)
      ≠ ([("_1", [some (PyValue.int 1)]), ("_2", [some (PyValue.int 2)])] : Table).length := by
    simp
  exact ⟨h1, h2, h3, h4, claim_C3_column_count_mismatch _ _ 3 _ none h1 h2 h3 h4⟩
